import Mathlib

/-!
# Verification of the InternetObject-js lexer, AST parser and validators

Shallow embedding of the repository's source files:

* `src/src/tokenizer/index.ts` — the newer position-indexed `Tokenizer`
  (`parseRegularString`, `parseRawString`, `parseByteString`, `parseNumber`,
  `parseLiteralOrOpenString`, `tokenize`).
* `src/unnamed/part_001` — `ASTParser` (`process`, `toObject`, push/pop stack).
* `src/unnamed/part_002` — `StringDef` and its `_process` validation chain.
* `src/unnamed/part_003` — `NumberDef`, `_intValidator`, `_getValidator`.

Strings are embedded as `List Char`; a JS string index `input[pos]` becomes
`List.get?`/pattern matching on the remaining input.  JS numbers are embedded
as exact rationals plus a `nan` marker (`JsNumber`): IEEE-754 rounding and
overflow/underflow of the host `parseInt`/`parseFloat` are not modelled, and
no claim below depends on them.  Token `position`/`row`/`col` bookkeeping is
omitted: no claim mentions source coordinates.

Helper modules that the sources import but that are absent from `src/`
(`tokenizer/is`, `tokenizer/symbols`, `tokenizer/literals`, the shared
`doCommonTypeCheck`, `throwError`) are modelled from the spec; each such
definition carries a doc comment starting `Modelled from the spec:`.
-/

namespace InternetObject

/-! ## Character classes and literals (tokenizer helper modules) -/

/-- Modelled from the spec: `is.isWhitespace` (§4.1) — space, tab, CR, LF,
form-feed, vertical-tab, NBSP, BOM.  The module `tokenizer/is` is not in
`src/`. -/
def isWhitespaceIO (c : Char) : Bool :=
  c = ' ' || c = '\t' || c = '\r' || c = '\n' || c = '\x0C' || c = '\x0B' ||
  c = '\u00A0' || c = '\uFEFF'

/-- Modelled from the spec: `is.isDigit` (§4.1) — `'0'..'9'`. -/
def isDigitIO (c : Char) : Bool := '0' ≤ c && c ≤ '9'

/-- Modelled from the spec: `is.isSpecialSymbol` (§4.1) — `{ } [ ] , : ~`. -/
def isSpecialSymbol (c : Char) : Bool :=
  c = '{' || c = '}' || c = '[' || c = ']' || c = ',' || c = ':' || c = '~'

/-- Modelled from the spec: `is.isValidOpenStringChar` (§4.1) — not a special
symbol, not a quote, not `#`. -/
def isValidOpenStringChar (c : Char) : Bool :=
  !(isSpecialSymbol c) && c ≠ '"' && c ≠ '\'' && c ≠ '#'

/-- Coarse token kinds (`TokenType` plus the structural-symbol kinds). -/
inductive TokType where
  | STRING | NUMBER | BOOLEAN | NULL | BINARY | SECTION_SEP
  | CURLY_OPEN | CURLY_CLOSE | BRACKET_OPEN | BRACKET_CLOSE
  | COMMA | COLON | TILDE
  deriving DecidableEq, Repr

/-- Modelled from the spec: `is.getSymbolTokenType` (§4.1), total over the
special-symbol set (arbitrary on other characters, where the source never
calls it). -/
def getSymbolTokenType (c : Char) : TokType :=
  if c = '{' then .CURLY_OPEN
  else if c = '}' then .CURLY_CLOSE
  else if c = '[' then .BRACKET_OPEN
  else if c = ']' then .BRACKET_CLOSE
  else if c = ',' then .COMMA
  else if c = ':' then .COLON
  else .TILDE

/-- Token subtypes used by the tokenizer. -/
inductive SubType where
  | REGULAR_STRING | RAW_STRING | OPEN_STRING | HEX | OCTAL | BINARY
  deriving DecidableEq, Repr

/-! ## JS numbers: `parseInt` / `parseFloat` -/

/-- A JS number: an exact rational, or NaN.  Host IEEE-754 rounding,
overflow to `Infinity` and underflow to `0` are not modelled (exact
rationals are kept); no claim depends on them. -/
inductive JsNumber where
  | num (q : ℚ)
  | nan
  deriving DecidableEq, Repr

/-- Digit value for radix parsing (`0-9`, `a-z`, `A-Z`). -/
def digitVal (c : Char) : Option Nat :=
  if '0' ≤ c && c ≤ '9' then some (c.toNat - '0'.toNat)
  else if 'a' ≤ c && c ≤ 'z' then some (c.toNat - 'a'.toNat + 10)
  else if 'A' ≤ c && c ≤ 'Z' then some (c.toNat - 'A'.toNat + 10)
  else none

/-- Whether `c` is a valid digit under `radix`. -/
def isRadixDigit (radix : Nat) (c : Char) : Bool :=
  match digitVal c with
  | some v => v < radix
  | none => false

/-- Numeric value of a digit string under `radix` (digits assumed valid). -/
def digitsVal (radix : Nat) (ds : List Char) : Nat :=
  ds.foldl (fun acc c => acc * radix + ((digitVal c).getD 0)) 0

/-- JS `parseInt(s, radix)`: optional sign, optional `0x`/`0X` when the radix
is 16, then the longest prefix of valid digits; no digits gives NaN.
(The tokenizer never passes leading whitespace, so trimming is omitted.) -/
def parseIntJs (s : List Char) (radix : Nat) : JsNumber :=
  let (sgn, s1) : ℤ × List Char :=
    match s with
    | '-' :: r => (-1, r)
    | '+' :: r => (1, r)
    | _ => (1, s)
  let s2 : List Char :=
    if radix = 16 then
      match s1 with
      | '0' :: 'x' :: r => r
      | '0' :: 'X' :: r => r
      | _ => s1
    else s1
  let digits := s2.takeWhile (isRadixDigit radix)
  if digits.isEmpty then .nan
  else .num ((sgn * (digitsVal radix digits : ℤ) : ℤ) : ℚ)

/-- JS `parseFloat(s)`: longest prefix of the form
`[+-]? (digits [. digits?] | . digits) ([eE] [+-]? digits)?`, evaluated as an
exact rational; no such prefix gives NaN. -/
def parseFloatJs (s : List Char) : JsNumber :=
  let (sgn, s1) : ℚ × List Char :=
    match s with
    | '-' :: r => (-1, r)
    | '+' :: r => (1, r)
    | _ => (1, s)
  let whole := s1.takeWhile isDigitIO
  let s2 := s1.dropWhile isDigitIO
  let (frac, s3) : List Char × List Char :=
    match s2 with
    | '.' :: r => (r.takeWhile isDigitIO, r.dropWhile isDigitIO)
    | _ => ([], s2)
  if whole.isEmpty && frac.isEmpty then .nan
  else
    let expVal : ℤ :=
      match s3 with
      | 'e' :: r | 'E' :: r =>
        let (esgn, r2) : ℤ × List Char :=
          match r with
          | '-' :: rr => (-1, rr)
          | '+' :: rr => (1, rr)
          | _ => (1, r)
        let eds := r2.takeWhile isDigitIO
        -- parseFloat only accepts the exponent when at least one digit follows
        if eds.isEmpty then 0 else esgn * (digitsVal 10 eds : ℤ)
      | _ => 0
    let mantissa : ℚ :=
      (digitsVal 10 whole : ℚ) + (digitsVal 10 frac : ℚ) / ((10 : ℚ) ^ frac.length)
    .num (sgn * mantissa * (10 : ℚ) ^ expVal)

/-! ## Tokens -/

/-- Decoded token values. -/
inductive TokValue where
  | str (s : List Char)
  | numV (n : JsNumber)
  | boolV (b : Bool)
  | nullV
  | bytes (base64 : List Char)   -- `Buffer.from(base64)` abstracted to the base64 text
  deriving DecidableEq, Repr

/-- A token: the source text that produced it, its decoded value, type and
subtype.  (`position`/`row`/`col` omitted — no claim concerns them.) -/
structure Token where
  text : List Char
  value : TokValue
  type : TokType
  subType : Option SubType := none
  deriving DecidableEq, Repr

/-! ## Regular strings (`Tokenizer.parseRegularString`) -/

/-- Lexer errors. -/
inductive Err where
  | stringNotClosed        -- "String ... is not closed."
  | endsWithEscape         -- "String ends with an unprocessed escape sequence"
  | invalidUnicodeEscape   -- "Invalid Unicode escape sequence \\u..."
  | invalidHexEscape       -- "Invalid hex escape sequence \\x..."
  | eofAfterPrefix         -- "Unexpected end of input after 'r'/'b'"
  | expectedQuote          -- "Expected a quotation mark after 'r'/'b'"
  | unexpectedChar         -- "Unexpected character '...'"
  | fuelOut                -- (embedding artifact: fuel exhausted; unreachable)
  deriving DecidableEq, Repr

/-- A hex digit as the source regexes `[0-9a-fA-F]` accept it. -/
def isHexDigit (c : Char) : Bool :=
  isDigitIO c || ('a' ≤ c && c ≤ 'f') || ('A' ≤ c && c ≤ 'F')

/-- Hex digit numeric value. -/
def hexVal (c : Char) : Nat := (digitVal c).getD 0

/-- Helper: prepend a decoded character to a `parseRegularString` body result,
OR-ing in whether a numeric (`\u`/`\x`) escape was seen. -/
def consDec (ch : Char) (norm : Bool) :
    Except Err (List Char × Bool × List Char) →
    Except Err (List Char × Bool × List Char)
  | .error e => .error e
  | .ok (v, f, r) => .ok (ch :: v, (f || norm), r)

/-- The body loop of `Tokenizer.parseRegularString` (source lines 73–131),
already past the opening quote.  Returns the decoded value, the
`needToNormalize` flag, and the input remaining after the closing quote.
`\uXXXX` requires exactly 4 hex digits and `\xXX` exactly 2 — the source
takes `substring(pos+1, pos+5)` (resp. `+3`) and tests it against an
anchored `{4}` (resp. `{2}`) regex, which fails when fewer characters
remain.  `String.fromCharCode` on a lone surrogate is not representable as
a Lean `Char`; `Char.ofNat` then yields `'\0'` — no claim depends on the
decoded character of a surrogate escape. -/
def decodeBody (enc : Char) : List Char → Except Err (List Char × Bool × List Char)
  | [] => .error .stringNotClosed
  | c :: rest =>
    if c = enc then .ok ([], false, rest)
    else if c = '\\' then
      match rest with
      | [] => .error .endsWithEscape
      | e :: rest2 =>
        if e = 'b' then consDec '\x08' false (decodeBody enc rest2)
        else if e = 'f' then consDec '\x0C' false (decodeBody enc rest2)
        else if e = 'n' then consDec '\n' false (decodeBody enc rest2)
        else if e = 'r' then consDec '\r' false (decodeBody enc rest2)
        else if e = 't' then consDec '\t' false (decodeBody enc rest2)
        else if e = 'u' then
          match rest2 with
          | c1 :: c2 :: c3 :: c4 :: rest6 =>
            if isHexDigit c1 && isHexDigit c2 && isHexDigit c3 && isHexDigit c4 then
              consDec (Char.ofNat (((hexVal c1 * 16 + hexVal c2) * 16 + hexVal c3) * 16 + hexVal c4))
                true (decodeBody enc rest6)
            else .error .invalidUnicodeEscape
          | _ => .error .invalidUnicodeEscape
        else if e = 'x' then
          match rest2 with
          | c1 :: c2 :: rest4 =>
            if isHexDigit c1 && isHexDigit c2 then
              consDec (Char.ofNat (hexVal c1 * 16 + hexVal c2)) true (decodeBody enc rest4)
            else .error .invalidHexEscape
          | _ => .error .invalidHexEscape
        else consDec e false (decodeBody enc rest2)
    else consDec c false (decodeBody enc rest)

/-- `Tokenizer.parseRegularString` (source lines 64–143).  `enc` is the
opening quote (already inspected by the dispatcher); `rem` is the input after
it.  The token text is `encloser + value + encloser` built from the decoded,
*pre-normalization* value; the token value is NFC-normalized exactly when a
`\u`/`\x` escape occurred.  Unicode NFC normalization is a host library
routine, abstracted as the parameter `nfc`. -/
def parseRegularString (nfc : List Char → List Char) (enc : Char) (rem : List Char) :
    Except Err (Token × List Char) :=
  match decodeBody enc rem with
  | .error e => .error e
  | .ok (raw, flag, rest) =>
    .ok ({ text := enc :: (raw ++ [enc]),
           value := .str (if flag then nfc raw else raw),
           type := .STRING, subType := some .REGULAR_STRING }, rest)

/-! ## Raw and byte strings -/

/-- `Tokenizer.parseRawString` (source lines 145–176).  `rem` starts at the
`r` prefix character. -/
def parseRawString (rem : List Char) : Except Err (Token × List Char) :=
  match rem with
  | [] => .error .eofAfterPrefix
  | _r :: rest =>
    match rest with
    | [] => .error .eofAfterPrefix
    | enc :: rest2 =>
      if enc ≠ '"' && enc ≠ '\'' then .error .expectedQuote
      else
        let body := rest2.takeWhile (· ≠ enc)
        match rest2.dropWhile (· ≠ enc) with
        | [] => .error .stringNotClosed
        | _ :: rest4 =>
          .ok ({ text := _r :: enc :: (body ++ [enc]), value := .str body,
                 type := .STRING, subType := some .RAW_STRING }, rest4)

/-- `Tokenizer.parseByteString` (source lines 178–213): same scan as raw
strings from the `b` prefix; the base64 payload is carried as text
(`Buffer.from(base64)` decoding is a host routine, not modelled). -/
def parseByteString (rem : List Char) : Except Err (Token × List Char) :=
  match rem with
  | [] => .error .eofAfterPrefix
  | _b :: rest =>
    match rest with
    | [] => .error .eofAfterPrefix
    | enc :: rest2 =>
      if enc ≠ '"' && enc ≠ '\'' then .error .expectedQuote
      else
        let body := rest2.takeWhile (· ≠ enc)
        match rest2.dropWhile (· ≠ enc) with
        | [] => .error .stringNotClosed
        | _ :: rest4 =>
          .ok ({ text := _b :: enc :: (body ++ [enc]), value := .bytes body,
                 type := .BINARY, subType := some .BINARY }, rest4)

/-! ## Numbers (`Tokenizer.parseNumber`) -/

/-- The source's character-class regexes for number scanning. -/
def jsDigitDot (c : Char) : Bool := isDigitIO c || c = '.'

/-- The leading `-` handling of `Tokenizer.parseNumber` (source lines
226–234): a `-` is consumed only when the next character is a digit;
otherwise the function reports "not a number" (`return null`). -/
def parseNumberSign : List Char → Option (List Char × List Char)
  | '-' :: rest =>
    if (rest.head?.map isDigitIO).getD false then some (['-'], rest) else none
  | rem => some ([], rem)

/-- The leading `+` handling of `parseNumber` (source lines 236–240): a `+`
at the current position is consumed unconditionally. -/
def parseNumberPlus : List Char × List Char → List Char × List Char
  | (sign1, '+' :: rest) => (sign1 ++ ['+'], rest)
  | (sign1, r1) => (sign1, r1)

/-- The fractional-part scan of `parseNumber` (source lines 294–303). -/
def scanFrac : List Char → Bool × List Char × List Char
  | '.' :: rr => (true, '.' :: rr.takeWhile isDigitIO, rr.dropWhile isDigitIO)
  | r3 => (false, [], r3)

/-- The exponent scan of `parseNumber` (source lines 305–318). -/
def scanExp : List Char → Bool × List Char × List Char
  | [] => (false, [], [])
  | e :: rr =>
    if e = 'e' || e = 'E' then
      match rr with
      | s :: rr2 =>
        if s = '+' || s = '-' then
          (true, e :: s :: rr2.takeWhile isDigitIO, rr2.dropWhile isDigitIO)
        else (true, e :: rr.takeWhile isDigitIO, rr.dropWhile isDigitIO)
      | [] => (true, [e], [])
    else (false, [], e :: rr)

/-- The base dispatch and scan loops of `Tokenizer.parseNumber` (source
lines 242–328), after the signs have been consumed.  `sign2` is the
consumed sign prefix, `r2` the input at the current position.  Each loop
`while (regex.test(input[pos])) { value += input[pos]; advance() }` becomes
a `takeWhile`/`dropWhile` pair.  (Quirk not modelled: in JS, `input[pos]`
past the end is `undefined` and `/[0-9a-fA-F]/.test(undefined)` is `true`—
a hex literal at end of input loops forever in the source.  The scans here
stop at end of input; no claim touches a hex literal at EOF.) -/
def parseNumberBody (sign2 r2 : List Char) : Token × List Char :=
  if r2.head? = some '0' then
    match (r2.drop 1).head? with
    | some c2 =>
      if c2 = 'x' || c2 = 'X' then
        let digits := (r2.drop 2).takeWhile isHexDigit
        let value := sign2 ++ r2.take 2 ++ digits
        ({ text := value, value := .numV (parseIntJs value 16),
           type := .NUMBER, subType := some .HEX }, (r2.drop 2).dropWhile isHexDigit)
      else if c2 = 'c' || c2 = 'C' then
        let digits := (r2.drop 2).takeWhile (isRadixDigit 8)
        let value := sign2 ++ r2.take 2 ++ digits
        ({ text := value, value := .numV (parseIntJs value 8),
           type := .NUMBER, subType := some .OCTAL }, (r2.drop 2).dropWhile (isRadixDigit 8))
      else if c2 = 'b' || c2 = 'B' then
        let digits := (r2.drop 2).takeWhile (isRadixDigit 2)
        let value := sign2 ++ r2.take 2 ++ digits
        ({ text := value, value := .numV (parseIntJs value 2),
           type := .NUMBER, subType := some .BINARY }, (r2.drop 2).dropWhile (isRadixDigit 2))
      else
        -- default branch of the '0' switch: scan /[0-9.]/ with base 10 and
        -- the hasDecimal/hasExponent flags left false, so parseInt is used
        let digits := r2.takeWhile jsDigitDot
        let value := sign2 ++ digits
        ({ text := value, value := .numV (parseIntJs value 10),
           type := .NUMBER, subType := none }, r2.dropWhile jsDigitDot)
    | none =>
      let digits := r2.takeWhile jsDigitDot
      let value := sign2 ++ digits
      ({ text := value, value := .numV (parseIntJs value 10),
         type := .NUMBER, subType := none }, r2.dropWhile jsDigitDot)
  else
    let whole := r2.takeWhile isDigitIO
    let r3 := r2.dropWhile isDigitIO
    let fr := scanFrac r3
    let ex := scanExp fr.2.2
    let value := sign2 ++ whole ++ fr.2.1 ++ ex.2.1
    let nv := if fr.1 || ex.1 then parseFloatJs value else parseIntJs value 10
    ({ text := value, value := .numV nv, type := .NUMBER, subType := none }, ex.2.2)

/-- `Tokenizer.parseNumber` (source lines 215–329) on the remaining input.
Returns `none` exactly when a leading `-` is not followed by a digit (the
source's only `return null`). -/
def parseNumber (rem : List Char) : Option (Token × List Char) :=
  (parseNumberSign rem).map (fun p =>
    parseNumberBody (parseNumberPlus p).1 (parseNumberPlus p).2)

/-! ## Open strings and literals (`Tokenizer.parseLiteralOrOpenString`) -/

/-- The scan loop of `parseLiteralOrOpenString` (source lines 340–355).
The source walks forward while `isValidOpenStringChar` holds, breaking on a
`---` section separator, and records `lastPos`, the position of the last
non-whitespace character consumed.  Equivalently, the consumed run splits as
`v ++ w` where `v` ends at that last non-whitespace character and `w` is the
trailing whitespace run; this returns `(v, w, rest)`. -/
def openScan : List Char → List Char × List Char × List Char
  | [] => ([], [], [])
  | c :: rest =>
    if ¬ isValidOpenStringChar c then ([], [], c :: rest)
    else if c = '-' && rest.take 2 = ['-', '-'] then ([], [], c :: rest)
    else
      let (v, w, r) := openScan rest
      if isWhitespaceIO c then
        if v.isEmpty then ([], c :: w, r) else (c :: v, w, r)
      else (c :: v, w, r)

/-- `Tokenizer.parseLiteralOrOpenString` (source lines 331–381).
`value = input.substring(startPos, lastPos + 1)`: when no non-whitespace
character was consumed, `lastPos` still equals `startPos`, so the value is
the first character of the remaining input (`rem.take 1`) — empty only at
end of input, which raises the "Unexpected character" error. -/
def parseLiteralOrOpenString (rem : List Char) : Except Err (Token × List Char) :=
  let (v, _w, r) := openScan rem
  let value := if v.isEmpty then rem.take 1 else v
  if value.isEmpty then .error .unexpectedChar
  else if value = ['T'] || value = ['t','r','u','e'] then
    .ok ({ text := value, value := .boolV true, type := .BOOLEAN }, r)
  else if value = ['F'] || value = ['f','a','l','s','e'] then
    .ok ({ text := value, value := .boolV false, type := .BOOLEAN }, r)
  else if value = ['N'] || value = ['n','u','l','l'] then
    .ok ({ text := value, value := .nullV, type := .NULL }, r)
  else
    .ok ({ text := value, value := .str value, type := .STRING,
           subType := some .OPEN_STRING }, r)

/-! ## The dispatcher (`Tokenizer.tokenize`) -/

/-- Result of one iteration of the `tokenize` while-loop. -/
inductive StepRes where
  | skip (rest : List Char)
  | emit (t : Token) (rest : List Char)
  | err (e : Err)
  deriving Repr

/-- Lift a token-producing routine into a step result. -/
def toStep : Except Err (Token × List Char) → StepRes
  | .error e => .err e
  | .ok (t, r) => .emit t r

/-- One iteration of `Tokenizer.tokenize` (source lines 390–468): the
dispatch on the current character.  Only called with input remaining. -/
def tokenizeStep (nfc : List Char → List Char) : List Char → StepRes
  | [] => .skip []   -- loop guard `pos < length` excludes this case
  | c :: rest =>
    if isWhitespaceIO c then .skip rest
    else if c = '#' then
      -- parseSingleLineComment: consume up to (not including) the next newline
      .skip ((c :: rest).dropWhile (· ≠ '\n'))
    else if c = '"' || c = '\'' then toStep (parseRegularString nfc c rest)
    else if c = 'r' && (rest.head?.map (fun d => d = '"' || d = '\'')).getD false then
      toStep (parseRawString (c :: rest))
    else if c = 'b' && (rest.head?.map (fun d => d = '"' || d = '\'')).getD false then
      toStep (parseByteString (c :: rest))
    else if isSpecialSymbol c then
      .emit { text := [c], value := .str [c], type := getSymbolTokenType c } rest
    else if c = '+' || c = '-' || isDigitIO c then
      if c = '-' && rest.take 2 = ['-', '-'] then
        .emit { text := ['-','-','-'], value := .str ['-','-','-'], type := .SECTION_SEP }
          (rest.drop 2)
      else
        match parseNumber (c :: rest) with
        | some (t, r) => .emit t r
        | none => toStep (parseLiteralOrOpenString (c :: rest))
    else toStep (parseLiteralOrOpenString (c :: rest))

/-- Fuelled driver for the `tokenize` while-loop.  Every reachable iteration
consumes at least one character, so `length + 1` fuel never runs out. -/
def tokenizeAux (nfc : List Char → List Char) : Nat → List Char → Except Err (List Token)
  | 0, rem => if rem.isEmpty then .ok [] else .error .fuelOut
  | fuel + 1, rem =>
    if rem.isEmpty then .ok []
    else
      match tokenizeStep nfc rem with
      | .skip r => tokenizeAux nfc fuel r
      | .emit t r => (tokenizeAux nfc fuel r).map (t :: ·)
      | .err e => .error e

/-- `Tokenizer.tokenize` (source lines 387–471). -/
def tokenize (nfc : List Char → List Char) (input : List Char) : Except Err (List Token) :=
  tokenizeAux nfc (input.length + 1) input

/-! ## AST parser (`ASTParser`, `src/unnamed/part_001`)

The parser consumes tokens of the older character-stream tokenizer
(`src/unnamed/part_000`): each has a `type` string (`"sep"`, `"datasep"`,
`"number"`, `"boolean"`, `"null"`, `"string"`) and a decoded `value`. -/

/-- A parser-tree value: the JS values the AST parser stores in container
`values` arrays — primitives, nested containers, and key-value pairs. -/
inductive PValue where
  | str (s : List Char)
  | numV (n : JsNumber)
  | boolV (b : Bool)
  | nullV
  | bytes (b : List Char)
  | tree (ty : Bool) (values : List PValue)   -- ty = true: object, false: array
  | kv (k : List Char) (v : Option PValue)    -- value `none` = JS undefined
  deriving Repr

/-- Container type: `"object"` or `"array"`. -/
inductive CType where
  | object | array
  deriving DecidableEq, Repr

/-- Tree constructor with a named container type. -/
def PValue.treeOf (ty : CType) (vs : List PValue) : PValue :=
  .tree (ty = CType.object) vs

/-- A token as the AST parser sees it. -/
structure PTok where
  ptype : List Char
  pvalue : PValue
  deriving Repr

/-- JS truthiness of a parser-tree value (`if (lastVal && ...)`).
Objects (trees, key-value pairs, buffers) are truthy; `""`, `0`, `NaN`,
`false` and `null` are falsy.  (Float underflow to `0` is not modelled —
values are exact rationals.) -/
def jsTruthy : PValue → Bool
  | .str s => !s.isEmpty
  | .numV (.num q) => q ≠ 0
  | .numV .nan => false
  | .boolV b => b
  | .nullV => false
  | .bytes _ => true
  | .tree _ _ => true
  | .kv _ _ => true

/-- Whether `typeof v` is one of `'string' | 'number' | 'boolean'`
(the colon branch's primitive test; `typeof null` is `"object"`). -/
def typeofPrimitive3 : PValue → Bool
  | .str _ => true
  | .numV _ => true
  | .boolV _ => true
  | _ => false

/-- `lastVal.toString()` for the values the colon branch converts into keys.
JS's shortest-round-trip float formatting is not modelled: non-integer
numbers map to a placeholder (no claim depends on non-integer keys);
the other cases are unreachable behind `typeofPrimitive3`. -/
def jsToString : PValue → List Char
  | .str s => s
  | .boolV true => ['t','r','u','e']
  | .boolV false => ['f','a','l','s','e']
  | .numV (.num q) => if q.den = 1 then (toString q.num).toList else ['?']
  | .numV .nan => ['N','a','N']
  | .nullV => ['n','u','l','l']
  | .bytes _ => ['?']
  | .tree _ _ => ['?']
  | .kv _ _ => ['?']

/-- How an in-progress container (a stack frame) is attached to its parent.
In the source the parent's `values` array holds a *reference* to the child;
here the child lives as its own frame and is folded back into the parent on
`pop` (or when reconstructing the root for `toObject`). -/
inductive Attach where
  | rootA                    -- the bottom (implicit root) frame
  | appended                 -- `addValue` appended the child to the parent
  | intoKV (k : List Char)   -- `addValue` stored the child in the parent's last key-value pair
  | detached                 -- `addValue` did nothing (the silent TODO branch): an orphan
  deriving Repr

/-- One open container on the `ASTParser.stack`. `values` holds the
children completed so far (excluding the in-progress child frame above). -/
structure Frame where
  ty : CType
  values : List PValue
  attach : Attach
  deriving Repr

/-- `ASTParser` state: the stack of open containers (head = top, the JS
array's last element) and the retained `lastToken`. -/
structure AState where
  frames : List Frame := []
  lastTok : Option PTok := none
  deriving Repr

/-- The initial parser state (no token processed yet; empty stack). -/
def astInit : AState := {}

/-- `ASTParser.getObject` (source lines 135–145): lazily create the implicit
root object when the stack is empty. -/
def ensureRoot (fs : List Frame) : List Frame :=
  if fs.isEmpty then [{ ty := .object, values := [], attach := .rootA }] else fs

/-- Whether `lastToken !== null && lastToken.value === ":"`. -/
def lastWasColon (lastTok : Option PTok) : Bool :=
  match lastTok with
  | some t =>
    match t.pvalue with
    | .str [':'] => true
    | _ => false
  | none => false

/-- Whether `lastToken !== null && lastToken.value === ","`. -/
def lastWasComma (lastTok : Option PTok) : Bool :=
  match lastTok with
  | some t =>
    match t.pvalue with
    | .str [','] => true
    | _ => false
  | none => false

/-- Replace the last element of a list (identity when empty). -/
def setLast (l : List PValue) (v : PValue) : List PValue :=
  l.dropLast ++ (if l.isEmpty then [] else [v])

/-- `ASTParser.addValue` (source lines 115–133), acting on the top frame.
If the previous token was `:` and the last child is a key-value pair, fill
its value; if the previous token was `:` but the last child is not a
key-value pair, do nothing (the source's unimplemented `TODO` branch);
otherwise append. -/
def addValueF (lastTok : Option PTok) (fs : List Frame) (v : PValue) : List Frame :=
  match fs with
  | [] => []   -- unreachable: callers pass an `ensureRoot`ed stack
  | top :: rest =>
    if lastWasColon lastTok then
      match top.values.getLast? with
      | some (.kv k _) => { top with values := setLast top.values (.kv k (some v)) } :: rest
      | _ => top :: rest
    else { top with values := top.values ++ [v] } :: rest

/-- `ASTParser.push` (source lines 147–152): create an empty container,
`addValue` it into the parent, and make it the new stack top.  The new
frame's `attach` records where `addValue` placed it: in the key-value pair
at the end of the parent (whose stale value it overwrites), appended, or —
when `addValue`'s silent branch did nothing — detached (an orphan that is
never visible from the root). -/
def pushF (lastTok : Option PTok) (fs : List Frame) (ty : CType) : List Frame :=
  match fs with
  | [] => []   -- unreachable: callers pass an `ensureRoot`ed stack
  | top :: rest =>
    if lastWasColon lastTok then
      match top.values.getLast? with
      | some (.kv k _) =>
        { ty := ty, values := [], attach := .intoKV k } ::
          { top with values := top.values.dropLast } :: rest
      | _ => { ty := ty, values := [], attach := .detached } :: top :: rest
    else { ty := ty, values := [], attach := .appended } :: top :: rest

/-- Fold a completed child frame back into its parent, mirroring the
reference the source created at push time. -/
def attachChild (c : Frame) (p : Frame) : Frame :=
  match c.attach with
  | .appended => { p with values := p.values ++ [.treeOf c.ty c.values] }
  | .intoKV k => { p with values := p.values ++ [.kv k (some (.treeOf c.ty c.values))] }
  | .detached => p
  | .rootA => p   -- unreachable: the root frame is never a child

/-- `ASTParser.pop` (source lines 154–166): the top container's type must
match the closing bracket, else a bracket-mismatch error.
Modelled from the spec: `throwError` (the `errors` module is absent from
`src/`) raises the structural bracket-mismatch error (§4.3.2, §7). -/
inductive PErr where
  | bracketMismatch
  deriving DecidableEq, Repr

def popF (fs : List Frame) (ty : CType) : Except PErr (List Frame) :=
  match fs with
  | [] => .error .bracketMismatch   -- unreachable: callers pass an `ensureRoot`ed stack
  | top :: rest =>
    if top.ty ≠ ty then .error .bracketMismatch
    else
      match rest with
      | [] => .ok []                               -- popping the implicit root
      | parent :: rest2 => .ok (attachChild top parent :: rest2)

/-- The `:` branch of `ASTParser.process` (source lines 34–48): take the
last child of the current container; when it is truthy and of a primitive
`typeof`, replace it with a key-value pair keyed by its string form; in
every other case the source's error emission is commented out (`TODO`) and
nothing happens. -/
def colonF (fs : List Frame) : List Frame :=
  match fs with
  | [] => []   -- unreachable: callers pass an `ensureRoot`ed stack
  | top :: rest =>
    match top.values.getLast? with
    | some lv =>
      if jsTruthy lv && typeofPrimitive3 lv then
        { top with values := setLast top.values (.kv (jsToString lv) none) } :: rest
      else top :: rest
    | none => top :: rest

/-- `ASTParser.process` (source lines 16–62).  The branch order mirrors the
source: `{` and `[` are matched on the token's *value* first; any token
whose *type* is not `"sep"` is added as a value (so a non-separator token
whose value happens to be `":"` or `"}"` is just data); then the separator
branches for `:`, `,` and the closing brackets. -/
def process (st : AState) (t : PTok) : Except PErr AState :=
  let fs := ensureRoot st.frames   -- `let obj = this.getObject()`
  let fs2 : Except PErr (List Frame) :=
    match t.pvalue with
    | .str ['{'] => .ok (pushF st.lastTok fs .object)
    | .str ['['] => .ok (pushF st.lastTok fs .array)
    | _ =>
      if t.ptype ≠ ['s','e','p'] then .ok (addValueF st.lastTok fs t.pvalue)
      else
        match t.pvalue with
        | .str [':'] => .ok (colonF fs)
        | .str [','] =>
          .ok (if lastWasComma st.lastTok then addValueF st.lastTok fs (.str []) else fs)
        | .str ['}'] => popF fs .object
        | .str [']'] => popF fs .array
        | _ => .ok fs
  fs2.map (fun fs3 => { frames := fs3, lastTok := some t })

/-- Process a whole token sequence from a given state. -/
def processAll (st : AState) : List PTok → Except PErr AState
  | [] => .ok st
  | t :: ts =>
    match process st t with
    | .error e => .error e
    | .ok st2 => processAll st2 ts

/-! ## `ASTParser.toObject` -/

/-- Fold the stack (top first) into the bottom frame, attaching each
completed child to its parent. -/
def reconstructGo (acc : Frame) : List Frame → CType × List PValue
  | [] => (acc.ty, acc.values)
  | g :: rest => reconstructGo (attachChild acc g) rest

/-- `stack[0]` with all in-progress children folded in: the root container
as the source would observe it through the references created at push time. -/
def reconstructRoot : List Frame → Option (CType × List PValue)
  | [] => none
  | f :: rest => some (reconstructGo f rest)

/-- Keys of the generated container: positional index or key-value key. -/
inductive GKey where
  | idx (n : Nat)
  | key (s : List Char)
  deriving DecidableEq, Repr

/-- The value `toObject` produces: a leaf (a parser-tree primitive, or
`none` for JS `undefined`), or a generated object/array holding keyed
entries. -/
inductive GenValue where
  | leafG (v : Option PValue)
  | objG (entries : List (GKey × GenValue))
  | arrG (entries : List (GKey × GenValue))
  deriving Repr

/-- JS property assignment `container[k] = v`: overwrite in place, else
append. -/
def setEntry (es : List (GKey × GenValue)) (k : GKey) (v : GenValue) :
    List (GKey × GenValue) :=
  if es.any (fun e => e.1 = k) then es.map (fun e => if e.1 = k then (k, v) else e)
  else es ++ [(k, v)]

mutual

/-- Computable size of a parser-tree value, used only to bound the fuel of
`genContainer`. -/
def pvSize : PValue → Nat
  | .tree _ vs => pvListSize vs + 1
  | .kv _ (some v) => pvSize v + 1
  | _ => 1

def pvListSize : List PValue → Nat
  | [] => 0
  | v :: vs => pvSize v + pvListSize vs

end

/-- `generateObject` (source lines 76–104), fuelled by term size so the
nested recursion through `List PValue` is structural on the fuel; the fuel
bound `pvListSize _ + 1` strictly dominates every recursive call, so the
`0` case is unreachable. -/
def genContainer : Nat → CType → List PValue → GenValue
  | 0, ty, _ => if ty = .object then .objG [] else .arrG []
  | fuel + 1, ty, vals =>
    let entries := (vals.enum.foldl (fun acc (p : Nat × PValue) =>
      let (index, value) := p
      match value with
      | .tree cty cvs =>
        setEntry acc (.idx index)
          (genContainer fuel (if cty then .object else .array) cvs)
      | .kv k kval =>
        match kval with
        | some (.tree cty cvs) =>
          setEntry acc (.key k)
            (genContainer fuel (if cty then .object else .array) cvs)
        | other => setEntry acc (.key k) (.leafG other)
      | other => setEntry acc (.idx index) (.leafG (some other))) [])
    if ty = .object then .objG entries else .arrG entries

/-- What `ASTParser.toObject` (source lines 64–107) returns: JS `null`,
JS `undefined`, the raw single child (returned without conversion), or the
generated document. -/
inductive ObjRes where
  | nullRes
  | undefRes
  | singleRes (v : PValue)
  | genRes (v : GenValue)
  deriving Repr

/-- `ASTParser.toObject`: `null` when the stack is empty; `undefined` when
the root has no children; the raw first child when it has exactly one;
otherwise `generateObject(tree, {})`. -/
def toObject (st : AState) : ObjRes :=
  match reconstructRoot st.frames with
  | none => .nullRes
  | some (ty, vals) =>
    match vals with
    | [] => .undefRes
    | [v] => .singleRes v
    | _ => .genRes (genContainer (pvListSize vals + 1) ty vals)

/-! ## Validators (`src/unnamed/part_002`, `src/unnamed/part_003`)

`StringDef._process` works with the older tree values, `NumberDef.parse`
with the newer node values; both ranges of JS values are embedded as `JVal`.
-/

/-- A JS value as the validators see it. -/
inductive JVal where
  | str (s : List Char)
  | numV (n : JsNumber)
  | bigintV (n : ℤ)
  | boolV (b : Bool)
  | nullV               -- JS null
  | undef               -- JS undefined (an absent value)
  deriving DecidableEq, Repr

/-- Validation / parse error codes (`io-error-codes`, `src/unnamed/part_004`). -/
inductive VErr where
  | valueRequired
  | nullNotAllowed
  | valueNotInChoice
  | notAString
  | invalidValue
  | invalidEmail
  | invalidUrl
  | invalidMaxLength
  | invalidMinLength
  | invalidType
  | notAType (t : List Char)      -- the dynamic `not-a-<type>` code
  | invalidRange
  | outOfRange
  | unsupportedNumberType
  deriving DecidableEq, Repr

/-- The recognized option bag for a schema member (`MemberDef`).  The
compiled `pattern` regex is abstracted as a predicate on the value (the
source's `^…$` anchoring and per-memberDef caching operate on the regex
text and are not observable through it). -/
structure MemberDef where
  type : List Char
  optional : Bool := false
  nullable : Bool := false            -- the source field `null`
  dflt : Option JVal := none          -- the source field `default`
  choices : Option (List JVal) := none
  min : Option JsNumber := none
  max : Option JsNumber := none
  minLength : Option JsNumber := none
  maxLength : Option JsNumber := none
  pattern : Option (List Char → Bool) := none

/-- Modelled from the spec: `doCommonTypeCheck` (§4.4.1) — the shared
nullability/optionality/choices gate.  Its module (`types/utils` resp.
`types/common-type`) is not in `src/`.  Absent values return the configured
default (or undefined) when optional, else fail `value-required`; explicit
null is allowed only when the member is nullable; a choices list must
contain the value. -/
def doCommonTypeCheck (md : MemberDef) (v : JVal) : Except VErr JVal :=
  if v = .undef then
    if md.optional then .ok (md.dflt.getD .undef) else .error .valueRequired
  else if v = .nullV then
    if md.nullable then .ok .nullV else .error .nullNotAllowed
  else
    match md.choices with
    | some cs => if v ∈ cs then .ok v else .error .valueNotInChoice
    | none => .ok v

/-- `value.length > bound` for a JS-number bound (`false` on NaN). -/
def lenGt (len : Nat) : JsNumber → Bool
  | .num q => (len : ℚ) > q
  | .nan => false

/-- `_validatePattern` (part_002 lines 135–167).  The built-in email/url
regexes are host regex evaluations, abstracted as the parameters
`emailTest`/`urlTest`. -/
def validatePattern (emailTest urlTest : List Char → Bool)
    (md : MemberDef) (s : List Char) : Except VErr Unit :=
  if md.type = ['s','t','r','i','n','g'] then
    match md.pattern with
    | some p => if p s then .ok () else .error .invalidValue
    | none => .ok ()
  else if md.type = ['e','m','a','i','l'] then
    if emailTest s then .ok () else .error .invalidEmail
  else if md.type = ['u','r','l'] then
    if urlTest s then .ok () else .error .invalidUrl
  else .ok ()

/-- `_process` of `StringDef` (part_002 lines 84–133): variable substitution
is skipped (no `vars` collaborator passed — the claims use none); then the
common check with its early return, the string-kind check, pattern/email/url
validation, the `maxLength` check, and the `minLength` check.  The source's
minLength comparison is `value.length > minLength` — the same direction as
maxLength — even though the class doc comment promises
`Value length >= minLength` is accepted. -/
def _process (emailTest urlTest : List Char → Bool)
    (md : MemberDef) (v : JVal) : Except VErr JVal :=
  match doCommonTypeCheck md v with
  | .error e => .error e
  | .ok w =>
    if w ≠ v || w = .nullV || w = .undef then .ok w
    else
      match v with
      | .str sval =>
        (match validatePattern emailTest urlTest md sval with
         | .error e => .error e
         | .ok _ =>
           match md.maxLength with
           | some m =>
             if lenGt sval.length m then .error .invalidMaxLength
             else
               match md.minLength with
               | some m2 =>
                 if lenGt sval.length m2 then .error .invalidMinLength else .ok v
               | none => .ok v
           | none =>
             match md.minLength with
             | some m2 =>
               if lenGt sval.length m2 then .error .invalidMinLength else .ok v
             | none => .ok v)
      | _ => .error .notAString

/-! ### `NumberDef` (part_003) -/

/-- The validator `_getValidator` selects: a range validator
(`_intValidator` with bound `min`/`max`), the always-failing unsupported
validator, or a construction-time `invalid-type` error. -/
inductive ValidatorK where
  | range (min max : Option ℤ)
  | unsupported (t : List Char)
  | badType (t : List Char)
  deriving DecidableEq, Repr

/-- `_getValidator` (part_003 lines 123–166).  A JS `switch` selects the
*first* matching `case` label: `float64` is listed both in the leading
supported group and in the later unsupported group, so it resolves to the
supported general validator and the later label is dead. -/
def _getValidator (type : List Char) : ValidatorK :=
  if type = ['f','l','o','a','t'] || type = ['f','l','o','a','t','6','4'] ||
     type = ['n','u','m','b','e','r'] || type = ['b','i','g','i','n','t'] ||
     type = ['i','n','t'] then .range none none
  else if type = ['u','i','n','t'] then .range (some 0) none
  else if type = ['i','n','t','8'] then .range (some (-(2 ^ 7))) (some (2 ^ 7 - 1))
  else if type = ['u','i','n','t','8'] then .range (some 0) (some (2 ^ 8 - 1))
  else if type = ['i','n','t','1','6'] then .range (some (-(2 ^ 15))) (some (2 ^ 15 - 1))
  else if type = ['u','i','n','t','1','6'] then .range (some 0) (some (2 ^ 16 - 1))
  else if type = ['i','n','t','3','2'] then .range (some (-(2 ^ 31))) (some (2 ^ 31 - 1))
  else if type = ['u','i','n','t','3','2'] then .range (some 0) (some (2 ^ 32 - 1))
  else if type = ['u','i','n','t','6','4'] || type = ['i','n','t','6','4'] ||
          type = ['f','l','o','a','t','3','2'] then .unsupported type
  else .badType type

/-- `value < bound` for an integer bound: `false` on NaN (JS comparison with
NaN) and on non-numeric values (unreachable behind the type checks). -/
def jvLtInt (v : JVal) (m : ℤ) : Bool :=
  match v with
  | .numV (.num q) => q < (m : ℚ)
  | .numV .nan => false
  | .bigintV n => n < m
  | _ => false

/-- `value > bound` for an integer bound, as `jvLtInt`. -/
def jvGtInt (v : JVal) (m : ℤ) : Bool :=
  match v with
  | .numV (.num q) => q > (m : ℚ)
  | .numV .nan => false
  | .bigintV n => n > m
  | _ => false

/-- `value < bound` for a JS-number memberDef bound (`min`/`max`). -/
def jvLtNum (v : JVal) (m : JsNumber) : Bool :=
  match m with
  | .num q =>
    match v with
    | .numV (.num q2) => q2 < q
    | .numV .nan => false
    | .bigintV n => (n : ℚ) < q
    | _ => false
  | .nan => false

/-- `value > bound` for a JS-number memberDef bound. -/
def jvGtNum (v : JVal) (m : JsNumber) : Bool :=
  match m with
  | .num q =>
    match v with
    | .numV (.num q2) => q2 > q
    | .numV .nan => false
    | .bigintV n => (n : ℚ) > q
    | _ => false
  | .nan => false

/-- `_intValidator` (part_003 lines 98–121).  `NUMBER_MAP[typeof value]` is
truthy only for `typeof value === "number"` (of all JS `typeof` strings only
`"number"` occurs in `NUMBER_TYPES`), so the value type resolves to
`"bigint"`, `"number"`, or `""`. -/
def _intValidator (min max : Option ℤ) (md : MemberDef) (v : JVal) : Except VErr Unit :=
  let valueType : List Char :=
    match v with
    | .bigintV _ => ['b','i','g','i','n','t']
    | .numV _ => ['n','u','m','b','e','r']
    | _ => []
  if valueType = [] then .error .invalidType
  else
    let memberdefType : List Char :=
      if md.type = ['b','i','g','i','n','t'] then ['b','i','g','i','n','t']
      else ['n','u','m','b','e','r']
    if memberdefType ≠ valueType then .error (.notAType md.type)
    else if (min.map (jvLtInt v)).getD false || (max.map (jvGtInt v)).getD false then
      .error .invalidRange
    else .ok ()

/-- Run the validator selected by `_getValidator`. -/
def runValidator (k : ValidatorK) (md : MemberDef) (v : JVal) : Except VErr Unit :=
  match k with
  | .range mn mx => _intValidator mn mx md v
  | .unsupported _ => .error .unsupportedNumberType
  | .badType _ => .error .invalidType   -- thrown at NumberDef construction in the source

/-- `NumberDef.parse` (part_003 lines 68–82), without a `Definitions`
collaborator (the claims pass none, so `defs?.getV(node) || node` is the
node itself): the common check, then the constructed validator, then the
memberDef `min`/`max` checks.  An absent `min`/`max` is `undefined`, which
passes the source's `!== null` guard but makes both comparisons false —
equivalently, the check only fires when a bound is present. -/
def numberDefParse (md : MemberDef) (v : JVal) : Except VErr JVal :=
  match doCommonTypeCheck md v with
  | .error e => .error e
  | .ok value =>
    match runValidator (_getValidator md.type) md value with
    | .error e => .error e
    | .ok _ =>
      if (md.min.map (jvLtNum value)).getD false then .error .outOfRange
      else if (md.max.map (jvGtNum value)).getD false then .error .outOfRange
      else .ok value

/-! ## Helper definitions used by the theorems -/

/-- Boolean list-prefix test. -/
def prefB : List Char → List Char → Bool
  | [], _ => true
  | _ :: _, [] => false
  | x :: xs, y :: ys => x = y && prefB xs ys

/-- Boolean substring (contiguous infix) test: `infB xs ys` holds when `xs`
occurs contiguously inside `ys`. -/
def infB (xs ys : List Char) : Bool :=
  match ys with
  | [] => xs.isEmpty
  | _ :: ys2 => prefB xs ys || infB xs ys2

/-- Independent scan of a regular-string body (the input after the opening
quote) for a numeric escape: walks to the closing quote, skipping escape
pairs, and reports whether a `\u` or `\x` escape occurs. -/
def hasNumEsc (enc : Char) : List Char → Bool
  | [] => false
  | c :: rest =>
    if c = enc then false
    else if c = '\\' then
      match rest with
      | [] => false
      | e :: rest2 => if e = 'u' || e = 'x' then true else hasNumEsc enc rest2
    else hasNumEsc enc rest

def goodHex4 : List Char → Bool
  | c1 :: c2 :: c3 :: c4 :: _ => isHexDigit c1 && isHexDigit c2 && isHexDigit c3 && isHexDigit c4
  | _ => false

def goodHex2 : List Char → Bool
  | c1 :: c2 :: _ => isHexDigit c1 && isHexDigit c2
  | _ => false

def isOpenTok (t : PTok) : Bool :=
  match t.pvalue with
  | .str ['{'] => true
  | .str ['['] => true
  | _ => false

def isCloseTok (t : PTok) : Bool :=
  (match t.pvalue with
   | .str ['}'] => true
   | .str [']'] => true
   | _ => false) && t.ptype = ['s','e','p'] && !(isOpenTok t)

def opens (ts : List PTok) : Nat := (ts.filter isOpenTok).length

def closes (ts : List PTok) : Nat := (ts.filter isCloseTok).length

/-! # Theorems

From here on: first the shared helper lemmas, then one theorem per claim
(`C1` … `C10`), each with its witness or counterexample. -/

theorem prefB_append (xs zs : List Char) : prefB xs (xs ++ zs) = true := by
  induction xs with
  | nil => rfl
  | cons x xs ih => simp [prefB, ih]

theorem infB_of_prefB (xs ys : List Char) (h : prefB xs ys = true) : infB xs ys = true := by
  cases ys with
  | nil => cases xs with
    | nil => rfl
    | cons x xs => simp [prefB] at h
  | cons y ys2 => simp [infB, h]

theorem infB_append (xs zs : List Char) : infB xs (xs ++ zs) = true :=
  infB_of_prefB _ _ (prefB_append xs zs)

/-! ## C3 — the `minLength` comparison bug in `StringDef._process` -/

/-- **C3** (code bug in the source).  The claim — and the class's own doc
comment (`Value length >= minLength` accepted) — require string validation
to fail `invalid-min-length` exactly when `value.length < minLength`.  The
source compares with `>` (the same direction as `maxLength`): evaluated on
the embedded `_process`, the three-character string `"abc"` with
`minLength = 2` is rejected with `invalid-min-length`, while the
one-character string `"a"` (shorter than `minLength`) is accepted. -/
theorem C3_minLength_eval :
    _process (fun _ => true) (fun _ => true)
      { type := ['s','t','r','i','n','g'], minLength := some (.num 2) }
      (.str ['a','b','c']) = .error .invalidMinLength ∧
    _process (fun _ => true) (fun _ => true)
      { type := ['s','t','r','i','n','g'], minLength := some (.num 2) }
      (.str ['a']) = .ok (.str ['a']) :=
  ⟨rfl, rfl⟩

/-! ## C4 — unsupported number types and the `float64` switch labels -/

/-- **C4** (counterexample).  The claim states that `NumberDef.parse` fails
`unsupported-number-type` for every value when the member type is any of
`int64`, `uint64`, `float32`, `float64`.  But a JS `switch` takes the
*first* matching `case` label and `float64` is listed in the leading
supported group (`float, float64, number, bigint, int`), so a `float64`
member parses an ordinary number successfully. -/
theorem C4_counterexample :
    _getValidator ['f','l','o','a','t','6','4'] = .range none none ∧
    numberDefParse { type := ['f','l','o','a','t','6','4'] } (.numV (.num 5)) =
      .ok (.numV (.num 5)) :=
  ⟨rfl, rfl⟩

/-- **C4** (amended).  For the member types `int64`, `uint64` and `float32`
the unsupported branch is taken: whenever the common type check passes,
`NumberDef.parse` fails with `unsupported-number-type`, for every value.
`float64` is excluded: it matches the earlier supported `case` group
(see `C4_counterexample`). -/
theorem C4_amended (md : MemberDef) (v w : JVal)
    (ht : md.type = ['i','n','t','6','4'] ∨ md.type = ['u','i','n','t','6','4'] ∨
          md.type = ['f','l','o','a','t','3','2'])
    (hc : doCommonTypeCheck md v = .ok w) :
    numberDefParse md v = .error .unsupportedNumberType := by
  rcases ht with h | h | h <;>
    simp [numberDefParse, hc, _getValidator, h, runValidator]

theorem C4_witness :
    doCommonTypeCheck { type := ['i','n','t','6','4'] } (.numV (.num 0)) =
      .ok (.numV (.num 0)) ∧
    numberDefParse { type := ['i','n','t','6','4'] } (.numV (.num 0)) =
      .error .unsupportedNumberType :=
  ⟨rfl, C4_amended { type := ['i','n','t','6','4'] } (.numV (.num 0)) (.numV (.num 0))
    (Or.inl rfl) rfl⟩

/-! ## C10 — `toObject` edge cases -/

/-- **C10**.  `toObject` returns JS `null` when `process` was never called
(the container stack is empty — in particular in the initial state); a
distinct JS `undefined` when a root exists but has no children; and, when
the root has exactly one child, that child itself, raw and unwrapped. -/
theorem C10_toObject_edges :
    toObject astInit = .nullRes ∧
    (∀ st : AState, st.frames = [] → toObject st = .nullRes) ∧
    (∀ (st : AState) (ty : CType),
      reconstructRoot st.frames = some (ty, []) → toObject st = .undefRes) ∧
    (∀ (st : AState) (ty : CType) (v : PValue),
      reconstructRoot st.frames = some (ty, [v]) → toObject st = .singleRes v) := by
  refine ⟨rfl, ?_, ?_, ?_⟩
  · intro st h
    simp [toObject, h, reconstructRoot]
  · intro st ty h
    simp [toObject, h]
  · intro st ty v h
    simp [toObject, h]

theorem C10_witness :
    toObject { frames := [] } = .nullRes ∧
    toObject { frames := [{ ty := .object, values := [], attach := .rootA }] } = .undefRes ∧
    toObject { frames := [{ ty := .object, values := [.boolV true], attach := .rootA }] } =
      .singleRes (.boolV true) :=
  ⟨C10_toObject_edges.2.1 { frames := [] } rfl,
   C10_toObject_edges.2.2.1 { frames := [{ ty := .object, values := [], attach := .rootA }] }
     .object rfl,
   C10_toObject_edges.2.2.2
     { frames := [{ ty := .object, values := [.boolV true], attach := .rootA }] }
     .object (.boolV true) rfl⟩

/-! ## C1, C2, C5, C6 — counterexamples -/

/-- **C1** (counterexample).  On the six-character input `"a\nb"` (quote,
`a`, backslash, `n`, `b`, quote) the single emitted token's `text` is
`quote a LF b quote` — the decoded value re-wrapped in quotes — which does
not occur as a substring of the input, contradicting the claim that every
token's `text` is the exact source substring (explicitly including
escape-decoded regular strings). -/
theorem C1_counterexample :
    tokenize (fun l => l) ['"', 'a', '\\', 'n', 'b', '"'] =
      .ok [{ text := ['"', 'a', '\n', 'b', '"'], value := .str ['a', '\n', 'b'],
             type := .STRING, subType := some .REGULAR_STRING }] ∧
    infB ['"', 'a', '\n', 'b', '"'] ['"', 'a', '\\', 'n', 'b', '"'] = false :=
  ⟨rfl, rfl⟩

/-- **C2** (counterexample).  Processing `{`, `}`, `:` leaves the root's
last (and only) child a container; the claim says the `:` must then emit an
invalid-key error, but the source's error emission is a commented-out
`TODO`: processing succeeds and the child is left untouched. -/
theorem C2_counterexample :
    processAll astInit
      [{ ptype := ['s','e','p'], pvalue := .str ['{'] },
       { ptype := ['s','e','p'], pvalue := .str ['}'] },
       { ptype := ['s','e','p'], pvalue := .str [':'] }] =
      .ok { frames := [{ ty := .object, values := [.tree true []], attach := .rootA }],
            lastTok := some { ptype := ['s','e','p'], pvalue := .str [':'] } } :=
  rfl

/-- **C5** (counterexample).  At a `+` not followed by a digit the claim
says `parseNumber` returns nothing and the character begins an open-string
token, and that no NUMBER token with a non-finite value is ever emitted.
On the input `+x` the source's `+` branch has no digit lookahead: it emits
a NUMBER token of text `+` whose value is `parseInt("+") = NaN`, and only
the `x` becomes an open string. -/
theorem C5_counterexample :
    tokenize (fun l => l) ['+', 'x'] =
      .ok [{ text := ['+'], value := .numV .nan, type := .NUMBER },
           { text := ['x'], value := .str ['x'], type := .STRING,
             subType := some .OPEN_STRING }] :=
  rfl

/-- **C6** (counterexample).  Processing the single token `}` pops the
implicit root (its type matches), leaving the container stack at depth 0
with no error — the claim says an error-free run always ends at depth
exactly 1. -/
theorem C6_counterexample :
    processAll astInit [{ ptype := ['s','e','p'], pvalue := .str ['}'] }] =
      .ok { frames := [], lastTok := some { ptype := ['s','e','p'], pvalue := .str ['}'] } } ∧
    (List.length ([] : List Frame)) = 0 :=
  ⟨rfl, rfl⟩

/-! ## C2 — the `:` branch of `ASTParser.process` (amended) -/

/-- **C2** (amended).  When the AST parser processes a `:` separator token
it never fails: if the last child of the current container is a *truthy*
primitive (non-empty string, non-zero non-NaN number, `true`), it is
replaced by a key-value pair keyed by the primitive's string form with
undefined value; in every other case — a container, an existing key-value
pair, a falsy primitive such as `""`, `0`, `NaN` or `false`, or an empty
container — the parser silently leaves the container unchanged (the
invalid-key error in the source is an unimplemented `TODO`). -/
theorem C2_amended (st : AState) (t : PTok)
    (hty : t.ptype = ['s','e','p']) (hv : t.pvalue = .str [':']) :
    ∃ st2 : AState, process st t = .ok st2 ∧ st2.lastTok = some t ∧
      ∀ top rest, ensureRoot st.frames = top :: rest →
        ((∀ lv, top.values.getLast? = some lv →
          ((jsTruthy lv && typeofPrimitive3 lv) = true →
            st2.frames =
              { top with values := top.values.dropLast ++ [.kv (jsToString lv) none] } :: rest) ∧
          ((jsTruthy lv && typeofPrimitive3 lv) = false → st2.frames = top :: rest)) ∧
        (top.values.getLast? = none → st2.frames = top :: rest)) := by
  refine ⟨{ frames := colonF (ensureRoot st.frames), lastTok := some t }, ?_, rfl, ?_⟩
  · simp only [process, hv, hty]
    rfl
  · intro top rest hfr
    constructor
    · intro lv hl
      have hne : top.values ≠ [] := by
        intro h0
        rw [h0] at hl
        simp at hl
      constructor
      · intro htruthy
        simp [hfr, colonF, hl, htruthy, setLast, hne]
      · intro hfalsy
        simp [hfr, colonF, hl, hfalsy]
    · intro hl
      simp [hfr, colonF, hl]

theorem C2_witness :
    ∃ st2 : AState,
      process { frames := [{ ty := .object, values := [.str ['a']], attach := .rootA }] }
        { ptype := ['s','e','p'], pvalue := .str [':'] } = .ok st2 ∧
      st2.frames =
        [{ ty := .object, values := [PValue.kv ['a'] none], attach := .rootA }] := by
  obtain ⟨st2, h1, -, h3⟩ :=
    C2_amended { frames := [{ ty := .object, values := [.str ['a']], attach := .rootA }] }
      { ptype := ['s','e','p'], pvalue := .str [':'] } rfl rfl
  refine ⟨st2, h1, ?_⟩
  have := ((h3 _ _ rfl).1 (.str ['a']) rfl).1 rfl
  simpa using this

/-! ## C8 — fixed-width integer ranges -/

/-- The six width-qualified types the source supports, with their
two's-complement bounds (`int64`/`uint64` take the unsupported branch —
see C4). -/
def widthTable : List (List Char × ℤ × ℤ) :=
  [(['i','n','t','8'], -(2 ^ 7), 2 ^ 7 - 1),
   (['u','i','n','t','8'], 0, 2 ^ 8 - 1),
   (['i','n','t','1','6'], -(2 ^ 15), 2 ^ 15 - 1),
   (['u','i','n','t','1','6'], 0, 2 ^ 16 - 1),
   (['i','n','t','3','2'], -(2 ^ 31), 2 ^ 31 - 1),
   (['u','i','n','t','3','2'], 0, 2 ^ 32 - 1)]

theorem intValidator_range (mn mx : ℤ) (md : MemberDef) (q : ℚ)
    (h : md.type ≠ ['b','i','g','i','n','t']) :
    _intValidator (some mn) (some mx) md (.numV (.num q)) =
      if q < (mn : ℚ) ∨ (mx : ℚ) < q then .error .invalidRange else .ok () := by
  simp only [_intValidator, jvLtInt, jvGtInt, Option.map_some, Option.getD_some, h,
    if_false, if_neg, reduceCtorEq]
  split_ifs with h1 h2 h3 <;> simp_all [jvLtInt, jvGtInt]

theorem parse_range_master (md : MemberDef) (q : ℚ) (lo hi : ℤ)
    (hch : md.choices = none) (hmin : md.min = none) (hmax : md.max = none)
    (hne : md.type ≠ ['b','i','g','i','n','t'])
    (hval : _getValidator md.type = .range (some lo) (some hi)) :
    (numberDefParse md (.numV (.num q)) = .ok (.numV (.num q)) ↔
      ((lo : ℚ) ≤ q ∧ q ≤ (hi : ℚ))) ∧
    ((q < (lo : ℚ) ∨ (hi : ℚ) < q) →
      numberDefParse md (.numV (.num q)) = .error .invalidRange) := by
  have hc1 : doCommonTypeCheck md (.numV (.num q)) = .ok (.numV (.num q)) := by
    simp [doCommonTypeCheck, hch]
  have hrun := intValidator_range lo hi md q hne
  simp only [numberDefParse, hc1, hval, runValidator, hrun, hmin, hmax,
    Option.map_none, Option.getD_none]
  by_cases hout : q < (lo : ℚ) ∨ (hi : ℚ) < q
  · rw [if_pos hout]
    refine ⟨⟨fun h => by simp at h, ?_⟩, fun _ => rfl⟩
    rintro ⟨h1, h2⟩
    rcases hout with h | h
    · exact absurd h1 (not_le.mpr h)
    · exact absurd h2 (not_le.mpr h)
  · rw [if_neg hout]
    push_neg at hout
    exact ⟨by simp [hout], fun h => absurd h (by push_neg; exact hout)⟩

theorem parse_min_master (md : MemberDef) (q : ℚ) (lo hi : ℤ) (m : ℚ)
    (hch : md.choices = none) (hmin : md.min = some (.num m)) (hmax : md.max = none)
    (hne : md.type ≠ ['b','i','g','i','n','t'])
    (hval : _getValidator md.type = .range (some lo) (some hi))
    (h1 : (lo : ℚ) ≤ q) (h2 : q ≤ (hi : ℚ)) (h3 : q < m) :
    numberDefParse md (.numV (.num q)) = .error .outOfRange := by
  have hc1 : doCommonTypeCheck md (.numV (.num q)) = .ok (.numV (.num q)) := by
    simp [doCommonTypeCheck, hch]
  have hrun := intValidator_range lo hi md q hne
  have hnout : ¬ (q < (lo : ℚ) ∨ (hi : ℚ) < q) := by
    push_neg
    exact ⟨h1, h2⟩
  simp only [numberDefParse, hc1, hval, runValidator, hrun, hmin, hmax,
    Option.map_some, Option.getD_some, if_neg hnout]
  simp [jvLtNum, h3]

/-- **C8**.  For every supported fixed-width integer type (`int8/16/32`,
`uint8/16/32`) and every numeric value `q`: with no memberDef
`min`/`max`/`choices`, `NumberDef.parse` succeeds iff `q` lies in the
two's-complement range `[lo, hi]` of the type, and any value outside the
range — in particular one past either bound — fails `invalid-range`.
When a memberDef `min` is present, an in-range value below it fails
`out-of-range` instead: the memberDef bounds are applied after the width
check. -/
theorem C8_fixed_width_ranges (t : List Char) (lo hi : ℤ) (md : MemberDef) (q : ℚ)
    (hmem : (t, lo, hi) ∈ widthTable)
    (hty : md.type = t) (hch : md.choices = none)
    (hmin : md.min = none) (hmax : md.max = none) :
    (numberDefParse md (.numV (.num q)) = .ok (.numV (.num q)) ↔
      ((lo : ℚ) ≤ q ∧ q ≤ (hi : ℚ))) ∧
    ((q < (lo : ℚ) ∨ (hi : ℚ) < q) →
      numberDefParse md (.numV (.num q)) = .error .invalidRange) ∧
    (∀ (md2 : MemberDef) (m : ℚ), md2.type = t → md2.choices = none →
      md2.min = some (.num m) → md2.max = none →
      ((lo : ℚ) ≤ q ∧ q ≤ (hi : ℚ) ∧ q < m) →
      numberDefParse md2 (.numV (.num q)) = .error .outOfRange) := by
  simp only [widthTable, List.mem_cons, List.not_mem_nil, or_false, Prod.mk.injEq] at hmem
  obtain hc | hc | hc | hc | hc | hc := hmem <;>
  obtain ⟨rfl, rfl, rfl⟩ := hc <;>
  · refine ⟨?_, ?_, ?_⟩
    · exact (parse_range_master md q _ _ hch hmin hmax
        (by rw [hty]; decide) (by rw [hty]; decide)).1
    · exact (parse_range_master md q _ _ hch hmin hmax
        (by rw [hty]; decide) (by rw [hty]; decide)).2
    · rintro md2 m hty2 hch2 hmin2 hmax2 ⟨h1, h2, h3⟩
      exact parse_min_master md2 q _ _ m hch2 hmin2 hmax2
        (by rw [hty2]; decide) (by rw [hty2]; decide) h1 h2 h3

theorem C8_witness :
    numberDefParse { type := ['i','n','t','8'] } (.numV (.num 127)) =
      .ok (.numV (.num 127)) ∧
    numberDefParse { type := ['i','n','t','8'] } (.numV (.num 128)) =
      .error .invalidRange := by
  constructor
  · exact (C8_fixed_width_ranges ['i','n','t','8'] (-(2 ^ 7)) (2 ^ 7 - 1)
      { type := ['i','n','t','8'] } 127 (by decide) rfl rfl rfl rfl).1.mpr (by norm_num)
  · exact (C8_fixed_width_ranges ['i','n','t','8'] (-(2 ^ 7)) (2 ^ 7 - 1)
      { type := ['i','n','t','8'] } 128 (by decide) rfl rfl rfl rfl).2.1 (by norm_num)

theorem openScan_decomp (l : List Char) :
    (openScan l).1 ++ (openScan l).2.1 ++ (openScan l).2.2 = l := by
  induction l with
  | nil => rfl
  | cons c rest ih =>
    rw [openScan]
    rcases hsc : openScan rest with ⟨v, w, r⟩
    rw [hsc] at ih
    simp only [hsc]
    split_ifs with h1 h2 h3 h4 <;> simp_all

theorem openScan_ws (l : List Char) :
    (openScan l).2.1.all isWhitespaceIO = true := by
  induction l with
  | nil => rfl
  | cons c rest ih =>
    rw [openScan]
    rcases hsc : openScan rest with ⟨v, w, r⟩
    rw [hsc] at ih
    simp only [hsc]
    split_ifs with h1 h2 h3 h4 <;> simp_all

theorem openScan_vlast (l : List Char) :
    ∀ x, (openScan l).1.getLast? = some x → isWhitespaceIO x = false := by
  induction l with
  | nil => intro x h; simp [openScan] at h
  | cons c rest ih =>
    intro x h
    rw [openScan] at h
    rcases hsc : openScan rest with ⟨v, w, r⟩
    rw [hsc] at h ih
    split_ifs at h with h1 h2 h3
    any_goals simp at h
    all_goals
      first
      | -- whitespace c: split on whether anything non-whitespace follows
        (by_cases hv0 : v = []
         · rw [if_pos hv0] at h
           simp at h
         · rw [if_neg hv0] at h
           simp only at h
           cases v with
           | nil => exact absurd rfl hv0
           | cons v0 v' =>
             rw [List.getLast?_cons_cons] at h
             exact ih x h)
      | -- non-whitespace c: the value starts with c
        (try simp only at h
         cases v with
         | nil =>
           simp at h
           subst h
           simpa using h3
         | cons v0 v' =>
           rw [List.getLast?_cons_cons] at h
           exact ih x h)

theorem openScan_head (c : Char) (rest : List Char)
    (hv : isValidOpenStringChar c = true)
    (hw : isWhitespaceIO c = false)
    (hd : c = '-' → rest.take 2 ≠ ['-', '-']) :
    ∃ v' w r, openScan (c :: rest) = (c :: v', w, r) ∧ openScan rest = (v', w, r) := by
  rw [openScan]
  rcases hsc : openScan rest with ⟨v, w, r⟩
  refine ⟨v, w, r, ?_, rfl⟩
  have h2 : ¬ (c = '-' ∧ rest.take 2 = ['-', '-']) := by
    rintro ⟨ha, hb⟩
    exact hd ha hb
  simp only [hsc, hv, hw]
  simp [h2, hv, hw]


/-- **C9**.  `parseLiteralOrOpenString`, started at a valid non-whitespace
open-string character that does not begin a `---` section separator, emits a
token whose text is the consumed run up to its last non-whitespace character
(trailing whitespace is consumed but excluded from the text), classified as
the literal `T`/`true`/`F`/`false`/`N`/`null` when the text is exactly one of
those spellings and as an OPEN_STRING string token otherwise; at end of input
the routine raises the "Unexpected character" error instead. -/
theorem C9_open_string (c : Char) (rest : List Char)
    (hv : isValidOpenStringChar c = true)
    (hw : isWhitespaceIO c = false)
    (hd : c = '-' → rest.take 2 ≠ ['-', '-']) :
    (∃ t r ws, parseLiteralOrOpenString (c :: rest) = .ok (t, r) ∧
      t.text ++ ws ++ r = c :: rest ∧ ws.all isWhitespaceIO = true ∧
      t.text ≠ [] ∧ (∀ x, t.text.getLast? = some x → isWhitespaceIO x = false) ∧
      ((t.text = ['T'] ∨ t.text = ['t','r','u','e']) →
        t.value = .boolV true ∧ t.type = .BOOLEAN) ∧
      ((t.text = ['F'] ∨ t.text = ['f','a','l','s','e']) →
        t.value = .boolV false ∧ t.type = .BOOLEAN) ∧
      ((t.text = ['N'] ∨ t.text = ['n','u','l','l']) →
        t.value = .nullV ∧ t.type = .NULL) ∧
      (t.text ≠ ['T'] → t.text ≠ ['t','r','u','e'] → t.text ≠ ['F'] →
        t.text ≠ ['f','a','l','s','e'] → t.text ≠ ['N'] → t.text ≠ ['n','u','l','l'] →
        t.value = .str t.text ∧ t.type = .STRING ∧ t.subType = some .OPEN_STRING)) ∧
    parseLiteralOrOpenString [] = .error .unexpectedChar := by
  obtain ⟨v', w, r, hsc, hrest⟩ := openScan_head c rest hv hw hd
  have hdec := openScan_decomp rest
  have hws := openScan_ws rest
  have hvl := openScan_vlast rest
  rw [hrest] at hdec hws hvl
  simp only at hdec hws hvl
  have hlast : ∀ x, (c :: v').getLast? = some x → isWhitespaceIO x = false := by
    intro x hx
    cases v' with
    | nil =>
      simp at hx
      subst hx
      exact hw
    | cons v0 vt =>
      rw [List.getLast?_cons_cons] at hx
      exact hvl x hx
  have happ : (c :: v') ++ w ++ r = c :: rest := by
    simpa [List.append_assoc] using congrArg (List.cons c) hdec
  refine ⟨?_, rfl⟩
  unfold parseLiteralOrOpenString
  rw [hsc]
  simp only [List.isEmpty_cons, Bool.false_eq_true, if_false]
  split_ifs with e1 e2 e3
  all_goals simp only [Bool.or_eq_true, decide_eq_true_eq] at e1
  any_goals simp only [Bool.or_eq_true, decide_eq_true_eq] at e2
  any_goals simp only [Bool.or_eq_true, decide_eq_true_eq] at e3
  · exact ⟨_, r, w, rfl, happ, hws, by simp, hlast,
      fun _ => ⟨rfl, rfl⟩,
      fun e => by rcases e with h | h <;> rcases e1 with h' | h' <;> simp_all,
      fun e => by rcases e with h | h <;> rcases e1 with h' | h' <;> simp_all,
      fun a1 a2 _ _ _ _ => by rcases e1 with h' | h' <;> simp_all⟩
  · exact ⟨_, r, w, rfl, happ, hws, by simp, hlast,
      fun e => by rcases e with h | h <;> rcases e2 with h' | h' <;> simp_all,
      fun _ => ⟨rfl, rfl⟩,
      fun e => by rcases e with h | h <;> rcases e2 with h' | h' <;> simp_all,
      fun _ _ a3 a4 _ _ => by rcases e2 with h' | h' <;> simp_all⟩
  · exact ⟨_, r, w, rfl, happ, hws, by simp, hlast,
      fun e => by rcases e with h | h <;> rcases e3 with h' | h' <;> simp_all,
      fun e => by rcases e with h | h <;> rcases e3 with h' | h' <;> simp_all,
      fun _ => ⟨rfl, rfl⟩,
      fun _ _ _ _ a5 a6 => by rcases e3 with h' | h' <;> simp_all⟩
  · exact ⟨_, r, w, rfl, happ, hws, by simp, hlast,
      fun e => by rcases e with h | h <;> simp_all,
      fun e => by rcases e with h | h <;> simp_all,
      fun e => by rcases e with h | h <;> simp_all,
      fun _ _ _ _ _ _ => ⟨rfl, rfl, rfl⟩⟩


/-- **C5** (amended).  At a `-` not followed by a digit (and not starting the
`---` section separator) `parseNumber` reports "not a number" (`null`) and
the dispatcher falls back to `parseLiteralOrOpenString`: the emitted token is
an OPEN_STRING string token whose text starts with the `-`.  (For `+` the
claimed fallback does not happen — see `C5_counterexample`.) -/
theorem C5_amended (nfc : List Char → List Char) (rest : List Char)
    (hnd : (rest.head?.map isDigitIO).getD false = false)
    (hsep : rest.take 2 ≠ ['-', '-']) :
    parseNumber ('-' :: rest) = none ∧
    ∃ t r, tokenizeStep nfc ('-' :: rest) = .emit t r ∧
      t.type = .STRING ∧ t.subType = some .OPEN_STRING ∧ t.text.head? = some '-' := by
  have hpn : parseNumber ('-' :: rest) = none := by
    simp [parseNumber, parseNumberSign, hnd]
  obtain ⟨v', w, r, hsc, -⟩ :=
    openScan_head '-' rest (by decide) (by decide) (fun _ => hsep)
  have hplos : parseLiteralOrOpenString ('-' :: rest) =
      .ok ({ text := '-' :: v', value := .str ('-' :: v'), type := .STRING,
             subType := some .OPEN_STRING }, r) := by
    unfold parseLiteralOrOpenString
    rw [hsc]
    simp only [List.isEmpty_cons, Bool.false_eq_true, if_false]
    split_ifs with e1 e2 e3 <;> simp_all
  refine ⟨hpn, ⟨'-' :: v', .str ('-' :: v'), .STRING, some .OPEN_STRING⟩, r, ?_, rfl, rfl, rfl⟩
  simp only [tokenizeStep]
  rw [if_neg (by decide), if_neg (by decide), if_neg (by decide), if_neg (by simp),
    if_neg (by simp), if_neg (by decide), if_pos (by decide),
    if_neg (by simp [hsep]), hpn]
  simp [hplos, toStep]
theorem scanFrac_split (l : List Char) :
    (scanFrac l).2.1 ++ (scanFrac l).2.2 = l := by
  unfold scanFrac
  split
  · simp [List.takeWhile_append_dropWhile]
  · simp

theorem scanExp_split (l : List Char) :
    (scanExp l).2.1 ++ (scanExp l).2.2 = l := by
  unfold scanExp
  split
  · rfl
  · rename_i e rr
    split_ifs with h1
    · match rr with
      | s :: rr2 =>
        simp only []
        split_ifs with h2
        · simp [List.takeWhile_append_dropWhile]
        · simp [List.takeWhile_append_dropWhile]
      | [] => simp
    · simp

theorem parseNumberBody_text (sign2 r2 : List Char) :
    (parseNumberBody sign2 r2).1.text ++ (parseNumberBody sign2 r2).2 = sign2 ++ r2 := by
  unfold parseNumberBody
  split_ifs with h0
  · rcases (r2.drop 1).head? with - | c2
    · simp [List.takeWhile_append_dropWhile]
    · simp only []
      split_ifs with h1 h2 h3 <;>
        simp [List.append_assoc, List.takeWhile_append_dropWhile, List.take_append_drop]
  · simp only [List.append_assoc]
    congr 1
    conv_rhs => rw [← List.takeWhile_append_dropWhile (p := isDigitIO) (l := r2)]
    congr 1
    conv_rhs => rw [← scanFrac_split (List.dropWhile isDigitIO r2)]
    congr 1
    exact scanExp_split _

theorem parseNumberPlus_split (s r : List Char) :
    (parseNumberPlus (s, r)).1 ++ (parseNumberPlus (s, r)).2 = s ++ r := by
  rcases r with - | ⟨c, rest⟩
  · rfl
  · by_cases hc : c = '+'
    · subst hc
      simp [parseNumberPlus]
    · unfold parseNumberPlus
      split
      · rename_i heq
        injection heq with h1 h2
        injection h2 with h3 h4
        exact absurd h3 hc
      · rename_i heq
        injection heq with h1 h2
        subst h1
        subst h2
        rfl

theorem parseNumber_text (rem : List Char) (tok : Token) (r : List Char)
    (h : parseNumber rem = some (tok, r)) : tok.text ++ r = rem := by
  unfold parseNumber at h
  rcases hs : parseNumberSign rem with - | ⟨sign1, r1⟩
  · rw [hs] at h
    simp at h
  · rw [hs] at h
    simp only [Option.map_some', Option.some.injEq] at h
    have hs1 : sign1 ++ r1 = rem := by
      unfold parseNumberSign at hs
      split at hs
      · split_ifs at hs
        simp only [Option.some.injEq, Prod.mk.injEq] at hs
        obtain ⟨rfl, rfl⟩ := hs
        rfl
      · simp only [Option.some.injEq, Prod.mk.injEq] at hs
        obtain ⟨rfl, rfl⟩ := hs
        rfl
    have hp : (parseNumberPlus (sign1, r1)).1 ++ (parseNumberPlus (sign1, r1)).2 =
        sign1 ++ r1 := parseNumberPlus_split sign1 r1
    have hb := parseNumberBody_text (parseNumberPlus (sign1, r1)).1
      (parseNumberPlus (sign1, r1)).2
    rw [h] at hb
    exact hb.trans (hp.trans hs1)
theorem consDec_ok (ch : Char) (norm : Bool) (x : Except Err (List Char × Bool × List Char))
    (raw : List Char) (flag : Bool) (rest : List Char)
    (h : consDec ch norm x = .ok (raw, flag, rest)) :
    ∃ v f, x = .ok (v, f, rest) ∧ raw = ch :: v ∧ flag = (f || norm) := by
  cases x with
  | error e => simp [consDec] at h
  | ok p =>
    obtain ⟨v, f, r⟩ := p
    simp only [consDec, Except.ok.injEq, Prod.mk.injEq] at h
    obtain ⟨h1, h2, h3⟩ := h
    exact ⟨v, f, by rw [h3], h1.symm, h2.symm⟩

theorem decodeBody_spec (enc : Char) (s : List Char) :
    ∀ raw flag rest, decodeBody enc s = .ok (raw, flag, rest) →
      (∃ b, s = b ++ enc :: rest) ∧ flag = hasNumEsc enc s ∧
      ('\\' ∉ s → raw ++ enc :: rest = s ∧ flag = false) := by
  induction s using decodeBody.induct with
  | enc => exact enc
  | case1 =>
    intro raw flag rest h
    simp [decodeBody] at h
  | case2 rest2 =>
    intro raw flag rest h
    rw [decodeBody.eq_def] at h
    simp only [if_pos rfl, Except.ok.injEq, Prod.mk.injEq] at h
    obtain ⟨rfl, rfl, rfl⟩ := h
    exact ⟨⟨[], rfl⟩, by rw [hasNumEsc.eq_def]; simp, fun _ => ⟨rfl, rfl⟩⟩
  | case3 hne =>
    intro raw flag rest h
    rw [decodeBody.eq_def] at h
    simp [hne] at h
  | case4 rest2 hne ih =>
    intro raw flag rest h
    rw [decodeBody.eq_def] at h
    simp only [if_neg hne] at h
    simp at h
    obtain ⟨v, f, hdb, hraw, hflag⟩ := consDec_ok _ _ _ _ _ _ h
    obtain ⟨⟨b, hb⟩, hfl2, -⟩ := ih v f rest hdb
    refine ⟨⟨'\\' :: 'b' :: b, by simp [hb]⟩, ?_, fun hns => absurd (by simp) hns⟩
    rw [hflag, hfl2]
    simp [hasNumEsc, hne]
  | case5 rest2 hne _ ih =>
    intro raw flag rest h
    rw [decodeBody.eq_def] at h
    simp only [if_neg hne] at h
    simp at h
    obtain ⟨v, f, hdb, hraw, hflag⟩ := consDec_ok _ _ _ _ _ _ h
    obtain ⟨⟨b, hb⟩, hfl2, -⟩ := ih v f rest hdb
    refine ⟨⟨'\\' :: 'f' :: b, by simp [hb]⟩, ?_, fun hns => absurd (by simp) hns⟩
    rw [hflag, hfl2]
    simp [hasNumEsc, hne]
  | case6 rest2 hne _ _ ih =>
    intro raw flag rest h
    rw [decodeBody.eq_def] at h
    simp only [if_neg hne] at h
    simp at h
    obtain ⟨v, f, hdb, hraw, hflag⟩ := consDec_ok _ _ _ _ _ _ h
    obtain ⟨⟨b, hb⟩, hfl2, -⟩ := ih v f rest hdb
    refine ⟨⟨'\\' :: 'n' :: b, by simp [hb]⟩, ?_, fun hns => absurd (by simp) hns⟩
    rw [hflag, hfl2]
    simp [hasNumEsc, hne]
  | case7 rest2 hne _ _ _ ih =>
    intro raw flag rest h
    rw [decodeBody.eq_def] at h
    simp only [if_neg hne] at h
    simp at h
    obtain ⟨v, f, hdb, hraw, hflag⟩ := consDec_ok _ _ _ _ _ _ h
    obtain ⟨⟨b, hb⟩, hfl2, -⟩ := ih v f rest hdb
    refine ⟨⟨'\\' :: 'r' :: b, by simp [hb]⟩, ?_, fun hns => absurd (by simp) hns⟩
    rw [hflag, hfl2]
    simp [hasNumEsc, hne]
  | case8 rest2 hne _ _ _ _ ih =>
    intro raw flag rest h
    rw [decodeBody.eq_def] at h
    simp only [if_neg hne] at h
    simp at h
    obtain ⟨v, f, hdb, hraw, hflag⟩ := consDec_ok _ _ _ _ _ _ h
    obtain ⟨⟨b, hb⟩, hfl2, -⟩ := ih v f rest hdb
    refine ⟨⟨'\\' :: 't' :: b, by simp [hb]⟩, ?_, fun hns => absurd (by simp) hns⟩
    rw [hflag, hfl2]
    simp [hasNumEsc, hne]
  | case9 c1 c2 c3 c4 rest6 hhex hne _ _ _ _ _ ih =>
    intro raw flag rest h
    rw [decodeBody.eq_def] at h
    simp only [if_neg hne] at h
    simp [hhex] at h
    obtain ⟨v, f, hdb, hraw, hflag⟩ := consDec_ok _ _ _ _ _ _ h
    obtain ⟨⟨b, hb⟩, hfl2, -⟩ := ih v f rest hdb
    refine ⟨⟨'\\' :: 'u' :: c1 :: c2 :: c3 :: c4 :: b, by simp [hb]⟩, ?_,
      fun hns => absurd (by simp) hns⟩
    rw [hflag]
    simp [hasNumEsc, hne]
  | case10 c1 c2 c3 c4 rest6 hhex hne _ _ _ _ _ =>
    intro raw flag rest h
    rw [decodeBody.eq_def] at h
    simp [hne, hhex] at h
  | case11 rest2 hshape hne _ _ _ _ _ =>
    intro raw flag rest h
    rw [decodeBody.eq_def] at h
    rcases rest2 with _ | ⟨a1, _ | ⟨a2, _ | ⟨a3, _ | ⟨a4, rr⟩⟩⟩⟩
    · simp [hne] at h
    · simp [hne] at h
    · simp [hne] at h
    · simp [hne] at h
    · exact (hshape a1 a2 a3 a4 rr rfl).elim
  | case12 c1 c2 rest4 hhex hne _ _ _ _ _ _ ih =>
    intro raw flag rest h
    rw [decodeBody.eq_def] at h
    simp only [if_neg hne] at h
    simp [hhex] at h
    obtain ⟨v, f, hdb, hraw, hflag⟩ := consDec_ok _ _ _ _ _ _ h
    obtain ⟨⟨b, hb⟩, hfl2, -⟩ := ih v f rest hdb
    refine ⟨⟨'\\' :: 'x' :: c1 :: c2 :: b, by simp [hb]⟩, ?_,
      fun hns => absurd (by simp) hns⟩
    rw [hflag]
    simp [hasNumEsc, hne]
  | case13 c1 c2 rest4 hhex hne _ _ _ _ _ _ =>
    intro raw flag rest h
    rw [decodeBody.eq_def] at h
    simp [hne, hhex] at h
  | case14 rest2 hshape hne _ _ _ _ _ _ =>
    intro raw flag rest h
    rw [decodeBody.eq_def] at h
    rcases rest2 with _ | ⟨a1, _ | ⟨a2, rr⟩⟩
    · simp [hne] at h
    · simp [hne] at h
    · exact (hshape a1 a2 rr rfl).elim
  | case15 e rest2 heb hef hen her het heu hex hne ih =>
    intro raw flag rest h
    rw [decodeBody.eq_def] at h
    simp only [if_neg hne] at h
    simp [heb, hef, hen, her, het, heu, hex] at h
    obtain ⟨v, f, hdb, hraw, hflag⟩ := consDec_ok _ _ _ _ _ _ h
    obtain ⟨⟨b, hb⟩, hfl2, -⟩ := ih v f rest hdb
    refine ⟨⟨'\\' :: e :: b, by simp [hb]⟩, ?_, fun hns => absurd (by simp) hns⟩
    rw [hflag, hfl2]
    simp [hasNumEsc, hne, heu, hex]
  | case16 e rest2 henc hesc ih =>
    intro raw flag rest h
    rw [decodeBody.eq_def] at h
    simp only [if_neg henc, if_neg hesc] at h
    obtain ⟨v, f, hdb, hraw, hflag⟩ := consDec_ok _ _ _ _ _ _ h
    obtain ⟨⟨b, hb⟩, hfl2, hthird⟩ := ih v f rest hdb
    refine ⟨⟨e :: b, by simp [hb]⟩, ?_, ?_⟩
    · rw [hflag, hfl2]
      conv_rhs => rw [hasNumEsc.eq_def]
      simp [henc, hesc]
    · intro hns
      have hns2 : '\\' ∉ rest2 := fun hm => hns (List.mem_cons_of_mem _ hm)
      obtain ⟨hh1, hh2⟩ := hthird hns2
      constructor
      · rw [hraw]
        simpa using hh1
      · rw [hflag, hh2]
        rfl

theorem decodeBody_u_fail (enc : Char) (hne : ¬ '\\' = enc) (rest : List Char)
    (hbad : goodHex4 rest = false) :
    decodeBody enc ('\\' :: 'u' :: rest) = .error .invalidUnicodeEscape := by
  rcases rest with _ | ⟨a1, _ | ⟨a2, _ | ⟨a3, _ | ⟨a4, rr⟩⟩⟩⟩ <;>
    (rw [decodeBody.eq_def]; simp_all [goodHex4, hne])

theorem decodeBody_x_fail (enc : Char) (hne : ¬ '\\' = enc) (rest : List Char)
    (hbad : goodHex2 rest = false) :
    decodeBody enc ('\\' :: 'x' :: rest) = .error .invalidHexEscape := by
  rcases rest with _ | ⟨a1, _ | ⟨a2, rr⟩⟩ <;>
    (rw [decodeBody.eq_def]; simp_all [goodHex2, hne])

theorem decodeBody_unclosed (enc : Char) (b : List Char)
    (hb : '\\' ∉ b) (he : enc ∉ b) : decodeBody enc b = .error .stringNotClosed := by
  induction b with
  | nil => rfl
  | cons c r ih =>
    have h1 : ¬ (c = enc) := fun h => he (h ▸ List.mem_cons_self c r)
    have h2 : ¬ (c = '\\') := fun h => hb (h ▸ List.mem_cons_self c r)
    rw [decodeBody.eq_def]
    simp only [if_neg h1, if_neg h2]
    rw [ih (fun hm => hb (List.mem_cons_of_mem _ hm)) (fun hm => he (List.mem_cons_of_mem _ hm))]
    rfl

theorem decodeBody_ends_escape (enc : Char) (hne : ¬ '\\' = enc) (b : List Char)
    (hb : '\\' ∉ b) (he : enc ∉ b) :
    decodeBody enc (b ++ ['\\']) = .error .endsWithEscape := by
  induction b with
  | nil => simp [decodeBody, hne]
  | cons c r ih =>
    have h1 : ¬ (c = enc) := fun h => he (h ▸ List.mem_cons_self c r)
    have h2 : ¬ (c = '\\') := fun h => hb (h ▸ List.mem_cons_self c r)
    rw [List.cons_append, decodeBody.eq_def]
    simp only [if_neg h1, if_neg h2]
    rw [ih (fun hm => hb (List.mem_cons_of_mem _ hm)) (fun hm => he (List.mem_cons_of_mem _ hm))]
    rfl


/-- **C7**.  `parseRegularString` escape handling: a `\u` escape not followed
by four hex digits fails with the invalid-Unicode-escape error and a `\x`
escape not followed by two hex digits fails with the invalid-hex-escape
error; otherwise the decode walks the body as `decodeBody_spec` describes,
and the token value is NFC-normalized exactly when a numeric (`\u`/`\x`)
escape occurred.  An unterminated string fails with string-not-closed, and a
body ending in a bare backslash fails with the unprocessed-escape error. -/
theorem C7_regular_string_escapes (nfc : List Char → List Char) (enc : Char)
    (henc : enc = '"' ∨ enc = '\'') :
    (∀ rest, goodHex4 rest = false →
      decodeBody enc ('\\' :: 'u' :: rest) = .error .invalidUnicodeEscape) ∧
    (∀ rest, goodHex2 rest = false →
      decodeBody enc ('\\' :: 'x' :: rest) = .error .invalidHexEscape) ∧
    (∀ s t rest, parseRegularString nfc enc s = .ok (t, rest) →
      ∃ raw b, s = b ++ enc :: rest ∧ t.text = enc :: (raw ++ [enc]) ∧
        t.value = .str (if hasNumEsc enc s then nfc raw else raw)) ∧
    decodeBody enc [] = .error .stringNotClosed ∧
    (∀ b, '\\' ∉ b → enc ∉ b → decodeBody enc b = .error .stringNotClosed) ∧
    (∀ b, '\\' ∉ b → enc ∉ b → decodeBody enc (b ++ ['\\']) = .error .endsWithEscape) := by
  have hne : ¬ '\\' = enc := by rcases henc with rfl | rfl <;> decide
  refine ⟨fun rest hbad => decodeBody_u_fail enc hne rest hbad,
    fun rest hbad => decodeBody_x_fail enc hne rest hbad, ?_, rfl,
    fun b hb he => decodeBody_unclosed enc b hb he,
    fun b hb he => decodeBody_ends_escape enc hne b hb he⟩
  intro s t rest h
  unfold parseRegularString at h
  rcases hdb : decodeBody enc s with e | ⟨raw, flag, rest2⟩
  · rw [hdb] at h
    simp at h
  · rw [hdb] at h
    simp only [Except.ok.injEq, Prod.mk.injEq] at h
    obtain ⟨h1, h2⟩ := h
    subst h2
    obtain ⟨⟨b, hb⟩, hflag, -⟩ := decodeBody_spec enc s raw flag rest2 hdb
    refine ⟨raw, b, hb, ?_, ?_⟩
    · rw [← h1]
    · rw [← h1, ← hflag]

theorem C7_witness :
    decodeBody '"' ['\\', 'u', 'Z'] = .error .invalidUnicodeEscape ∧
    decodeBody '"' ['a'] = .error .stringNotClosed := by
  refine ⟨(C7_regular_string_escapes (fun l => l) '"' (Or.inl rfl)).1 ['Z'] rfl, ?_⟩
  exact (C7_regular_string_escapes (fun l => l) '"' (Or.inl rfl)).2.2.2.2.1 ['a']
    (by decide) (by decide)
theorem setLast_length (l : List PValue) (v : PValue) :
    (setLast l v).length = l.length := by
  cases l with
  | nil => rfl
  | cons a r =>
    simp [setLast, List.length_dropLast]

theorem addValueF_length (lt : Option PTok) (fs : List Frame) (v : PValue) :
    (addValueF lt fs v).length = fs.length := by
  cases fs with
  | nil => rfl
  | cons top rest =>
    unfold addValueF
    split_ifs with h1
    · rcases hl : top.values.getLast? with - | lv
      · simp [hl]
      · cases lv <;> simp [hl, setLast_length]
    · simp

theorem pushF_length (lt : Option PTok) (fs : List Frame) (ty : CType)
    (h : fs ≠ []) : (pushF lt fs ty).length = fs.length + 1 := by
  cases fs with
  | nil => exact absurd rfl h
  | cons top rest =>
    unfold pushF
    split_ifs with h1
    · rcases hl : top.values.getLast? with - | lv
      · simp [hl]
      · cases lv <;> simp [hl]
    · simp

theorem colonF_length (fs : List Frame) : (colonF fs).length = fs.length := by
  cases fs with
  | nil => rfl
  | cons top rest =>
    unfold colonF
    rcases hl : top.values.getLast? with - | lv
    · simp [hl]
    · simp only [hl]
      split_ifs <;> simp [setLast_length]

theorem popF_length (fs : List Frame) (ty : CType) (fs2 : List Frame)
    (h : popF fs ty = .ok fs2) : fs2.length = fs.length - 1 := by
  cases fs with
  | nil => simp [popF] at h
  | cons top rest =>
    simp only [popF] at h
    split_ifs at h with h1
    cases rest with
    | nil =>
      simp at h
      simp [← h]
    | cons p r2 =>
      simp at h
      simp [← h]

theorem ensureRoot_ne (fs : List Frame) : ensureRoot fs ≠ [] := by
  unfold ensureRoot
  split <;> simp_all

theorem ensureRoot_len (fs : List Frame) (h : fs ≠ []) : ensureRoot fs = fs := by
  unfold ensureRoot
  split <;> simp_all


theorem isOpenTok_false (t : PTok) (h1 : t.pvalue = .str ['{'] → False)
    (h2 : t.pvalue = .str ['['] → False) : isOpenTok t = false := by
  unfold isOpenTok
  split <;> simp_all

theorem isCloseTok_false_val (t : PTok) (h1 : t.pvalue = .str ['}'] → False)
    (h2 : t.pvalue = .str [']'] → False) : isCloseTok t = false := by
  unfold isCloseTok
  have : (match t.pvalue with
    | PValue.str ['}'] => true
    | PValue.str [']'] => true
    | _ => false) = false := by
    split <;> simp_all
  simp [this]

theorem process_depth (st : AState) (t : PTok) (st2 : AState)
    (h : process st t = .ok st2) :
    st2.frames.length =
      (if isOpenTok t then (ensureRoot st.frames).length + 1
       else if isCloseTok t then (ensureRoot st.frames).length - 1
       else (ensureRoot st.frames).length) := by
  unfold process at h
  simp only [] at h
  split at h
  · rename_i heq
    simp only [Except.map, Except.ok.injEq] at h
    subst h
    simp [isOpenTok, heq, pushF_length _ _ _ (ensureRoot_ne st.frames)]
  · rename_i heq
    simp only [Except.map, Except.ok.injEq] at h
    subst h
    simp [isOpenTok, heq, pushF_length _ _ _ (ensureRoot_ne st.frames)]
  · rename_i hne1 hne2
    rw [if_neg (by simp [isOpenTok_false t hne1 hne2])]
    split_ifs at h with hsep hcomma
    · have hcl : isCloseTok t = false := by
        simp [isCloseTok, hsep]
      rw [if_neg (by simp [hcl])]
      simp only [Except.map, Except.ok.injEq] at h
      subst h
      exact addValueF_length _ _ _
    · have hptype : t.ptype = ['s','e','p'] := not_not.mp hsep
      split at h
      · rename_i heq
        have hcl : isCloseTok t = false := by simp [isCloseTok, heq]
        rw [if_neg (by simp [hcl])]
        simp only [Except.map, Except.ok.injEq] at h
        subst h
        exact colonF_length _
      · rename_i heq
        have hcl : isCloseTok t = false := by simp [isCloseTok, heq]
        rw [if_neg (by simp [hcl])]
        simp only [Except.map, Except.ok.injEq] at h
        subst h
        exact addValueF_length _ _ _
      · rename_i heq
        have hcl : isCloseTok t = true := by
          simp [isCloseTok, heq, hptype, isOpenTok]
        rw [if_pos (by simp [hcl])]
        rcases hpf : popF (ensureRoot st.frames) CType.object with e | fs2'
        · rw [hpf] at h
          simp [Except.map] at h
        · rw [hpf] at h
          simp only [Except.map, Except.ok.injEq] at h
          subst h
          exact popF_length _ _ _ hpf
      · rename_i heq
        have hcl : isCloseTok t = true := by
          simp [isCloseTok, heq, hptype, isOpenTok]
        rw [if_pos (by simp [hcl])]
        rcases hpf : popF (ensureRoot st.frames) CType.array with e | fs2'
        · rw [hpf] at h
          simp [Except.map] at h
        · rw [hpf] at h
          simp only [Except.map, Except.ok.injEq] at h
          subst h
          exact popF_length _ _ _ hpf
      · rename_i hne3 hne4 hne5 hne6
        have hcl : isCloseTok t = false := isCloseTok_false_val t hne5 hne6
        rw [if_neg (by simp [hcl])]
        simp only [Except.map, Except.ok.injEq] at h
        subst h
        rfl
    · have hptype : t.ptype = ['s','e','p'] := not_not.mp hsep
      split at h
      · rename_i heq
        have hcl : isCloseTok t = false := by simp [isCloseTok, heq]
        rw [if_neg (by simp [hcl])]
        simp only [Except.map, Except.ok.injEq] at h
        subst h
        exact colonF_length _
      · rename_i heq
        have hcl : isCloseTok t = false := by simp [isCloseTok, heq]
        rw [if_neg (by simp [hcl])]
        simp only [Except.map, Except.ok.injEq] at h
        subst h
        rfl
      · rename_i heq
        have hcl : isCloseTok t = true := by
          simp [isCloseTok, heq, hptype, isOpenTok]
        rw [if_pos (by simp [hcl])]
        rcases hpf : popF (ensureRoot st.frames) CType.object with e | fs2'
        · rw [hpf] at h
          simp [Except.map] at h
        · rw [hpf] at h
          simp only [Except.map, Except.ok.injEq] at h
          subst h
          exact popF_length _ _ _ hpf
      · rename_i heq
        have hcl : isCloseTok t = true := by
          simp [isCloseTok, heq, hptype, isOpenTok]
        rw [if_pos (by simp [hcl])]
        rcases hpf : popF (ensureRoot st.frames) CType.array with e | fs2'
        · rw [hpf] at h
          simp [Except.map] at h
        · rw [hpf] at h
          simp only [Except.map, Except.ok.injEq] at h
          subst h
          exact popF_length _ _ _ hpf
      · rename_i hne3 hne4 hne5 hne6
        have hcl : isCloseTok t = false := isCloseTok_false_val t hne5 hne6
        rw [if_neg (by simp [hcl])]
        simp only [Except.map, Except.ok.injEq] at h
        subst h
        rfl

theorem opens_cons (t : PTok) (ts : List PTok) :
    opens (t :: ts) = (if isOpenTok t then 1 else 0) + opens ts := by
  simp [opens, List.filter_cons]
  split_ifs <;> simp [Nat.add_comm]

theorem closes_cons (t : PTok) (ts : List PTok) :
    closes (t :: ts) = (if isCloseTok t then 1 else 0) + closes ts := by
  simp [closes, List.filter_cons]
  split_ifs <;> simp [Nat.add_comm]

theorem processAll_depth (ts : List PTok) : ∀ (st st2 : AState),
    st.frames.length ≥ 1 →
    (∀ n, closes (List.take n ts) ≤ opens (List.take n ts) + (st.frames.length - 1)) →
    processAll st ts = .ok st2 →
    st2.frames.length + closes ts = st.frames.length + opens ts ∧
    st2.frames.length ≥ 1 := by
  induction ts with
  | nil =>
    intro st st2 hL _ h
    simp only [processAll, Except.ok.injEq] at h
    subst h
    simp [opens, closes, hL]
  | cons t ts ih =>
    intro st st2 hL hpre h
    simp only [processAll] at h
    rcases hp : process st t with e | st1
    · rw [hp] at h
      simp at h
    · rw [hp] at h
      have hd := process_depth st t st1 hp
      rw [ensureRoot_len st.frames (by intro h0; rw [h0] at hL; simp at hL)] at hd
      have hL2 : st1.frames.length ≥ 1 ∧
          st1.frames.length = st.frames.length + (if isOpenTok t then 1 else 0) -
            (if isCloseTok t then 1 else 0) := by
        by_cases ho : isOpenTok t
        · rw [if_pos ho] at hd
          have hcf : isCloseTok t = false := by
            simp [isCloseTok, ho]
          simp [hd, ho, hcf]
        · rw [if_neg ho] at hd
          by_cases hc : isCloseTok t
          · rw [if_pos hc] at hd
            have h1 := hpre 1
            simp only [List.take_succ_cons, List.take_zero] at h1
            rw [closes_cons, opens_cons] at h1
            simp [hc, ho, opens, closes] at h1
            have hge2 : st.frames.length ≥ 2 := by omega
            simp [hd, ho, hc]
            omega
          · rw [if_neg hc] at hd
            simp [hd, ho, hc]
            omega
      obtain ⟨hge, heq⟩ := hL2
      have hpre2 : ∀ n, closes (List.take n ts) ≤
          opens (List.take n ts) + (st1.frames.length - 1) := by
        intro n
        have hn := hpre (n + 1)
        simp only [List.take_succ_cons] at hn
        rw [closes_cons, opens_cons] at hn
        by_cases ho : isOpenTok t <;> by_cases hc : isCloseTok t <;>
          simp [ho, hc] at hn heq ⊢ <;> omega
      obtain ⟨ha, hb⟩ := ih st1 st2 hge hpre2 h
      rw [closes_cons, opens_cons]
      constructor
      · by_cases ho : isOpenTok t <;> by_cases hc : isCloseTok t <;>
          simp [ho, hc] at heq ⊢ <;> omega
      · exact hb


theorem process_close_obj (st : AState) (t : PTok) (hty : t.ptype = ['s','e','p'])
    (hv : t.pvalue = .str ['}']) :
    process st t =
      (popF (ensureRoot st.frames) .object).map (fun fs => ⟨fs, some t⟩) := by
  unfold process
  simp only []
  rw [hv]
  simp [hty]

theorem process_close_arr (st : AState) (t : PTok) (hty : t.ptype = ['s','e','p'])
    (hv : t.pvalue = .str [']']) :
    process st t =
      (popF (ensureRoot st.frames) .array).map (fun fs => ⟨fs, some t⟩) := by
  unfold process
  simp only []
  rw [hv]
  simp [hty]

/-- **C6** (amended).  (a) A `}` / `]` separator token pops the top of the
container stack when its type matches (object resp. array), shrinking the
stack by one, and fails with a bracket-mismatch error when it does not.
(b) For a nonempty token sequence whose closing brackets never exceed the
openings in any prefix and balance them exactly in total, an error-free run
from the initial state ends with the container stack at depth exactly 1. -/
theorem C6_amended :
    (∀ (st : AState) (t : PTok) (top : Frame) (rest : List Frame),
      t.ptype = ['s','e','p'] →
      ensureRoot st.frames = top :: rest →
      ((t.pvalue = .str ['}'] → top.ty ≠ .object →
          process st t = .error .bracketMismatch) ∧
       (t.pvalue = .str ['}'] → top.ty = .object → ∃ st2, process st t = .ok st2 ∧
          st2.frames.length = rest.length) ∧
       (t.pvalue = .str [']'] → top.ty ≠ .array →
          process st t = .error .bracketMismatch) ∧
       (t.pvalue = .str [']'] → top.ty = .array → ∃ st2, process st t = .ok st2 ∧
          st2.frames.length = rest.length))) ∧
    (∀ (ts : List PTok) (st2 : AState), ts ≠ [] →
      (∀ n, closes (List.take n ts) ≤ opens (List.take n ts)) →
      opens ts = closes ts →
      processAll astInit ts = .ok st2 →
      st2.frames.length = 1) := by
  constructor
  · intro st t top rest hty hroot
    refine ⟨?_, ?_, ?_, ?_⟩
    · intro hv hne
      rw [process_close_obj st t hty hv, hroot]
      simp [popF, hne, Except.map]
    · intro hv hto
      rw [process_close_obj st t hty hv, hroot]
      cases rest with
      | nil =>
        refine ⟨⟨[], some t⟩, ?_, rfl⟩
        simp [popF, hto, Except.map]
      | cons p r2 =>
        refine ⟨⟨attachChild top p :: r2, some t⟩, ?_, by simp⟩
        simp [popF, hto, Except.map]
    · intro hv hne
      rw [process_close_arr st t hty hv, hroot]
      simp [popF, hne, Except.map]
    · intro hv hto
      rw [process_close_arr st t hty hv, hroot]
      cases rest with
      | nil =>
        refine ⟨⟨[], some t⟩, ?_, rfl⟩
        simp [popF, hto, Except.map]
      | cons p r2 =>
        refine ⟨⟨attachChild top p :: r2, some t⟩, ?_, by simp⟩
        simp [popF, hto, Except.map]
  · intro ts st2 hne hpre htot h
    cases ts with
    | nil => exact absurd rfl hne
    | cons t ts2 =>
      simp only [processAll] at h
      rcases hp : process astInit t with e | st1
      · rw [hp] at h
        simp at h
      · rw [hp] at h
        have hd := process_depth astInit t st1 hp
        have hroot1 : (ensureRoot (astInit.frames)).length = 1 := rfl
        rw [hroot1] at hd
        have hnc : isCloseTok t = false := by
          by_contra hc
          have hc2 : isCloseTok t = true := by
            revert hc
            cases isCloseTok t <;> simp
          have h1 := hpre 1
          simp only [List.take_succ_cons, List.take_zero] at h1
          rw [closes_cons, opens_cons] at h1
          have hno : isOpenTok t = false := by
            simp [isCloseTok] at hc2
            exact hc2.2
          simp [hc2, hno, opens, closes] at h1
        have hpre2 : ∀ n, closes (List.take n ts2) ≤
            opens (List.take n ts2) + (st1.frames.length - 1) := by
          intro n
          have hn := hpre (n + 1)
          simp only [List.take_succ_cons] at hn
          rw [closes_cons, opens_cons] at hn
          by_cases ho : isOpenTok t <;> simp [ho, hnc] at hn hd ⊢ <;> omega
        have hge : st1.frames.length ≥ 1 := by
          by_cases ho : isOpenTok t <;> simp [ho, hnc] at hd <;> omega
        obtain ⟨ha, -⟩ := processAll_depth ts2 st1 st2 hge hpre2 h
        rw [closes_cons, opens_cons] at htot
        by_cases ho : isOpenTok t <;> simp [ho, hnc] at htot hd <;> omega
theorem dropWhile_head_false {p : Char → Bool} : ∀ (l : List Char) (x : Char) (xs : List Char),
    l.dropWhile p = x :: xs → p x = false := by
  intro l
  induction l with
  | nil => intro x xs h; simp at h
  | cons c r ih =>
    intro x xs h
    rw [List.dropWhile_cons] at h
    split_ifs at h with hc
    · exact ih x xs h
    · cases h
      simpa using hc


theorem parseRawString_text (rem : List Char) (t : Token) (r : List Char)
    (h : parseRawString rem = .ok (t, r)) : t.text ++ r = rem := by
  unfold parseRawString at h
  rcases rem with - | ⟨c0, rest⟩
  · simp at h
  · rcases rest with - | ⟨enc, rest2⟩
    · simp at h
    · simp only [] at h
      split_ifs at h with hq
      · split at h
        · simp at h
        · rename_i d rest4 hd
          simp only [Except.ok.injEq, Prod.mk.injEq] at h
          obtain ⟨rfl, rfl⟩ := h
          have hde : d = enc := by
            have hfd := dropWhile_head_false rest2 d rest4 hd
            simpa using hfd
          subst hde
          simp only [List.cons_append, List.append_assoc, List.singleton_append,
            List.nil_append, List.cons.injEq, true_and]
          rw [← hd, List.takeWhile_append_dropWhile]

theorem parseByteString_text (rem : List Char) (t : Token) (r : List Char)
    (h : parseByteString rem = .ok (t, r)) : t.text ++ r = rem := by
  unfold parseByteString at h
  rcases rem with - | ⟨c0, rest⟩
  · simp at h
  · rcases rest with - | ⟨enc, rest2⟩
    · simp at h
    · simp only [] at h
      split_ifs at h with hq
      · split at h
        · simp at h
        · rename_i d rest4 hd
          simp only [Except.ok.injEq, Prod.mk.injEq] at h
          obtain ⟨rfl, rfl⟩ := h
          have hde : d = enc := by
            have hfd := dropWhile_head_false rest2 d rest4 hd
            simpa using hfd
          subst hde
          simp only [List.cons_append, List.append_assoc, List.singleton_append,
            List.nil_append, List.cons.injEq, true_and]
          rw [← hd, List.takeWhile_append_dropWhile]

theorem decodeBody_plain (enc : Char) :
    ∀ (s raw : List Char) (flag : Bool) (rest : List Char),
    '\\' ∉ s → decodeBody enc s = .ok (raw, flag, rest) →
    raw ++ enc :: rest = s ∧ flag = false := by
  intro s
  induction s with
  | nil =>
    intro raw flag rest hnb h
    simp [decodeBody] at h
  | cons c s2 ih =>
    intro raw flag rest hnb h
    rw [decodeBody.eq_def] at h
    simp only [] at h
    by_cases hc : c = enc
    · rw [if_pos hc] at h
      simp only [Except.ok.injEq, Prod.mk.injEq] at h
      obtain ⟨rfl, rfl, rfl⟩ := h
      simp [hc]
    · rw [if_neg hc] at h
      have hcb : ¬ c = '\\' := by
        intro e
        exact hnb (by simp [e])
      rw [if_neg hcb] at h
      rcases hdb : decodeBody enc s2 with e | ⟨raw2, flag2, rest2⟩
      · rw [hdb] at h
        simp [consDec] at h
      · rw [hdb] at h
        simp only [consDec, Except.ok.injEq, Prod.mk.injEq] at h
        obtain ⟨rfl, rfl, rfl⟩ := h
        have hnb2 : '\\' ∉ s2 := fun m => hnb (List.mem_cons_of_mem _ m)
        obtain ⟨ha, hfl⟩ := ih raw2 flag2 rest2 hnb2 hdb
        subst hfl
        exact ⟨by rw [List.cons_append, ha], rfl⟩

theorem parseRegularString_plain (nfc : List Char → List Char) (enc : Char)
    (rem : List Char) (t : Token) (r : List Char)
    (hnb : '\\' ∉ rem) (h : parseRegularString nfc enc rem = .ok (t, r)) :
    t.text ++ r = enc :: rem := by
  unfold parseRegularString at h
  rcases hdb : decodeBody enc rem with e | ⟨raw, flag, rest⟩
  · rw [hdb] at h
    simp at h
  · rw [hdb] at h
    simp only [Except.ok.injEq, Prod.mk.injEq] at h
    obtain ⟨rfl, rfl⟩ := h
    obtain ⟨ha, -⟩ := decodeBody_plain enc rem raw flag rest hnb hdb
    simp only []
    rw [List.cons_append, List.append_assoc]
    simp [ha]

theorem parseRegularString_subtype (nfc : List Char → List Char) (enc : Char)
    (rem : List Char) (t : Token) (r : List Char)
    (h : parseRegularString nfc enc rem = .ok (t, r)) :
    t.subType = some SubType.REGULAR_STRING := by
  unfold parseRegularString at h
  rcases hdb : decodeBody enc rem with e | ⟨raw, flag, rest⟩
  · rw [hdb] at h
    simp at h
  · rw [hdb] at h
    simp only [Except.ok.injEq, Prod.mk.injEq] at h
    obtain ⟨rfl, rfl⟩ := h
    rfl

theorem parseLit_text (rem v w r0 : List Char) (t : Token) (r : List Char)
    (hsc : openScan rem = (v, w, r0)) (hv : v ≠ [])
    (h : parseLiteralOrOpenString rem = .ok (t, r)) :
    t.text = v ∧ r = r0 := by
  unfold parseLiteralOrOpenString at h
  rw [hsc] at h
  simp only [] at h
  have hv2 : ¬ (v.isEmpty = true) := by simpa using hv
  rw [if_neg hv2] at h
  rw [if_neg hv2] at h
  split_ifs at h <;>
    (simp only [Except.ok.injEq, Prod.mk.injEq] at h
     obtain ⟨rfl, rfl⟩ := h
     exact ⟨rfl, rfl⟩)

theorem toStep_lit_infix (c : Char) (rest : List Char) (t : Token) (r : List Char)
    (hv : isValidOpenStringChar c = true) (hw : isWhitespaceIO c = false)
    (hd : c = '-' → rest.take 2 ≠ ['-', '-'])
    (h : toStep (parseLiteralOrOpenString (c :: rest)) = .emit t r) :
    infB t.text (c :: rest) = true := by
  obtain ⟨v', w, r0, hsc, -⟩ := openScan_head c rest hv hw hd
  rcases hpl : parseLiteralOrOpenString (c :: rest) with e | ⟨t0, r0'⟩
  · rw [hpl] at h
    simp [toStep] at h
  · rw [hpl] at h
    simp only [toStep] at h
    cases h
    obtain ⟨htx, rfl⟩ := parseLit_text (c :: rest) (c :: v') w r0 t r hsc (by simp) hpl
    have hdec := openScan_decomp (c :: rest)
    rw [hsc] at hdec
    simp only [] at hdec
    rw [htx, ← hdec, List.append_assoc]
    exact infB_append _ _

/-- **C1** (amended).  Every token the dispatcher emits has its text occur as
a substring of the step input, with the regular-string exception: for
regular-string tokens this holds only when the consumed source contains no
backslash (the text is rebuilt from the decoded value, so escape sequences
are replaced by their decoded characters — see `C1_counterexample`). -/
theorem C1_amended (nfc : List Char → List Char) (inp : List Char) (t : Token)
    (r : List Char) (h : tokenizeStep nfc inp = .emit t r) :
    (t.subType ≠ some SubType.REGULAR_STRING → infB t.text inp = true) ∧
    ('\\' ∉ inp → infB t.text inp = true) := by
  rcases inp with - | ⟨c, rest⟩
  · simp [tokenizeStep] at h
  · rw [tokenizeStep] at h
    split_ifs at h with hws hh hq hr hb hsym hnum hdash
    · -- regular string
      rcases hps : parseRegularString nfc c rest with e | ⟨t0, r0⟩
      · rw [hps] at h
        simp [toStep] at h
      · rw [hps] at h
        simp only [toStep] at h
        cases h
        have hsub := parseRegularString_subtype nfc c rest t r hps
        constructor
        · intro hne
          exact absurd hsub hne
        · intro hnb
          have hnb2 : '\\' ∉ rest := fun m => hnb (List.mem_cons_of_mem _ m)
          have key := parseRegularString_plain nfc c rest t r hnb2 hps
          rw [← key]
          exact infB_append _ _
    · -- raw string
      rcases hps : parseRawString (c :: rest) with e | ⟨t0, r0⟩
      · rw [hps] at h
        simp [toStep] at h
      · rw [hps] at h
        simp only [toStep] at h
        cases h
        have key := parseRawString_text (c :: rest) t r hps
        exact ⟨fun _ => by rw [← key]; exact infB_append _ _,
               fun _ => by rw [← key]; exact infB_append _ _⟩
    · -- byte string
      rcases hps : parseByteString (c :: rest) with e | ⟨t0, r0⟩
      · rw [hps] at h
        simp [toStep] at h
      · rw [hps] at h
        simp only [toStep] at h
        cases h
        have key := parseByteString_text (c :: rest) t r hps
        exact ⟨fun _ => by rw [← key]; exact infB_append _ _,
               fun _ => by rw [← key]; exact infB_append _ _⟩
    · -- special symbol
      cases h
      exact ⟨fun _ => infB_append [c] r, fun _ => infB_append [c] r⟩
    · -- section separator ---
      simp only [Bool.and_eq_true, decide_eq_true_eq] at hdash
      obtain ⟨hcd, htk⟩ := hdash
      subst hcd
      cases h
      have hta := List.take_append_drop 2 rest
      rw [htk] at hta
      have key : ['-', '-', '-'] ++ rest.drop 2 = '-' :: rest := by
        rw [← hta]
        rfl
      exact ⟨fun _ => by rw [← key]; exact infB_append _ _,
             fun _ => by rw [← key]; exact infB_append _ _⟩
    · -- number or '-'-led open string
      rcases hpn : parseNumber (c :: rest) with - | ⟨t0, r0⟩
      · -- parseNumber gave null: c must be '-' with no digit next
        rw [hpn] at h
        have hcd : c = '-' := by
          by_contra hne
          have hsome : parseNumberSign (c :: rest) = some ([], c :: rest) := by
            unfold parseNumberSign
            split
            · rename_i rest' heq
              injection heq with h1 h2
              exact absurd h1 hne
            · rfl
          unfold parseNumber at hpn
          rw [hsome] at hpn
          simp at hpn
        subst hcd
        have htk : rest.take 2 ≠ ['-', '-'] := by
          intro he
          apply hdash
          simp [he]
        have key := toStep_lit_infix '-' rest t r (by decide) (by decide)
          (fun _ => htk) h
        exact ⟨fun _ => key, fun _ => key⟩
      · rw [hpn] at h
        cases h
        have key := parseNumber_text (c :: rest) t r hpn
        exact ⟨fun _ => by rw [← key]; exact infB_append _ _,
               fun _ => by rw [← key]; exact infB_append _ _⟩
    · -- open string / literal fallback
      have hq2 : ¬ (c = '"' ∨ c = '\'') := by
        simpa using hq
      have hv : isValidOpenStringChar c = true := by
        simp only [isValidOpenStringChar, Bool.and_eq_true, Bool.not_eq_true',
          decide_eq_true_eq, Bool.not_eq_true]
        refine ⟨⟨⟨?_, fun e => hq2 (Or.inl e)⟩, fun e => hq2 (Or.inr e)⟩, fun e => hh e⟩
        simpa using hsym
      have hcd : ¬ c = '-' := by
        intro e
        exact hnum (by simp [e])
      have key := toStep_lit_infix c rest t r hv (by simpa using hws)
        (fun e => absurd e hcd) h
      exact ⟨fun _ => key, fun _ => key⟩

/-- **C1** witness: on the input `a` the dispatcher emits the open-string
token `a`, and both amended conclusions hold. -/
theorem C1_witness :
    tokenizeStep (fun s => s) ['a'] =
      .emit { text := ['a'], value := .str ['a'], type := .STRING,
              subType := some SubType.OPEN_STRING } [] ∧
    ((some SubType.OPEN_STRING ≠ some SubType.REGULAR_STRING →
        infB ['a'] ['a'] = true) ∧
      ('\\' ∉ ['a'] → infB ['a'] ['a'] = true)) :=
  ⟨rfl, C1_amended (fun s => s) ['a']
    { text := ['a'], value := .str ['a'], type := .STRING,
      subType := some SubType.OPEN_STRING } [] rfl⟩



/-- **C5** witness: the amended theorem at the concrete input `-a`. -/
theorem C5_witness :
    parseNumber ['-', 'a'] = none ∧
    ∃ t r, tokenizeStep (fun s => s) ('-' :: ['a']) = .emit t r ∧
      t.type = .STRING ∧ t.subType = some SubType.OPEN_STRING ∧
      t.text.head? = some '-' :=
  C5_amended (fun s => s) ['a'] (by decide) (by decide)

/-- **C6** witness: part (a) of the amended theorem at the initial state and
a `}` separator token — the implicit root object is popped, leaving depth 0.
-/
theorem C6_witness :
    ∃ st2, process astInit { ptype := ['s','e','p'], pvalue := .str ['}'] } = .ok st2 ∧
      st2.frames.length = 0 :=
  (C6_amended.1 astInit { ptype := ['s','e','p'], pvalue := .str ['}'] }
    { ty := .object, values := [], attach := .rootA } [] rfl rfl).2.1 rfl rfl

/-- **C9** witness: the open-string theorem at the concrete input `hi`. -/
theorem C9_witness :
    (∃ t r ws, parseLiteralOrOpenString ('h' :: ['i']) = .ok (t, r) ∧
      t.text ++ ws ++ r = 'h' :: ['i'] ∧ ws.all isWhitespaceIO = true ∧
      t.text ≠ [] ∧ (∀ x, t.text.getLast? = some x → isWhitespaceIO x = false) ∧
      ((t.text = ['T'] ∨ t.text = ['t','r','u','e']) →
        t.value = .boolV true ∧ t.type = .BOOLEAN) ∧
      ((t.text = ['F'] ∨ t.text = ['f','a','l','s','e']) →
        t.value = .boolV false ∧ t.type = .BOOLEAN) ∧
      ((t.text = ['N'] ∨ t.text = ['n','u','l','l']) →
        t.value = .nullV ∧ t.type = .NULL) ∧
      (t.text ≠ ['T'] → t.text ≠ ['t','r','u','e'] → t.text ≠ ['F'] →
        t.text ≠ ['f','a','l','s','e'] → t.text ≠ ['N'] → t.text ≠ ['n','u','l','l'] →
        t.value = .str t.text ∧ t.type = .STRING ∧ t.subType = some SubType.OPEN_STRING)) ∧
    parseLiteralOrOpenString [] = .error .unexpectedChar :=
  C9_open_string 'h' ['i'] (by decide) (by decide) (fun hc => absurd hc (by decide))


end InternetObject
